import Mathlib

/-!
# Verification of the twitter-automation-ai core pipeline

A shallow embedding, in Lean 4, of the core pipeline of the
`twitter-automation-ai` repository: the multi-provider text-generation
gateway (`src/core/llm_service/generator.py`, `parsing.py`), the decision
heuristics (`src/main.py`, `src/features/analyzer/service.py`), the
idempotency ledger (`src/utils/file_handler.py`), the per-account scheduler
loops (`src/main.py`) and the incremental harvester
(`src/features/scraper/service.py`).

Pure functions of the source are translated into Lean functions; stateful
loops become explicit state-passing folds; calls into external collaborators
(Selenium, the LLM vendor SDKs, `datetime.fromisoformat`, the filesystem)
become oracle parameters recording only what the surrounding code observes
of them.  Python `float` thresholds and scores are modelled as `ℚ` (the code
only ever compares them), Python strings as `String`, Python sets as
`Finset`/`List` with membership.
-/

namespace TwAuto

/-! ## Python string primitives

Small models of the Python `str` methods the embedded code uses
(`strip`, `rstrip`, `lower`, slicing `[:n]`, substring `in`).  Python's
whitespace set for `strip` is modelled by its ASCII part, which is all the
embedded call sites can produce. -/

/-- Characters Python's `str.strip()` removes (ASCII whitespace). -/
def isPyWs (c : Char) : Bool :=
  (c == ' ') || (c == '\t') || (c == '\n') || (c == '\r') || (c == '\x0b') || (c == '\x0c')

/-- Python `str.strip()` on a character list. -/
def pyStripL (cs : List Char) : List Char :=
  ((cs.dropWhile isPyWs).reverse.dropWhile isPyWs).reverse

/-- Python `str.strip()`. -/
def pyStrip (s : String) : String := (pyStripL s.toList).asString

/-- Python `str.rstrip()`. -/
def pyRstrip (s : String) : String :=
  ((s.toList.reverse.dropWhile isPyWs).reverse).asString

/-- Python `str.lower()` (ASCII case folding, which covers every
comparison the embedded code performs). -/
def pyLower (s : String) : String := (s.toList.map Char.toLower).asString

/-- Python slicing `s[:n]`. -/
def pyTake (n : Nat) (s : String) : String := (s.toList.take n).asString

/-- Python substring test `needle in hay`. -/
def pyIn (needle hay : String) : Bool := decide (needle.toList <:+: hay.toList)

/-! ## TextGenerationGateway — `TextGenerator.generate_text`
(`src/core/llm_service/generator.py`, lines 22–104)

Each vendor SDK call is an external collaborator; what the code observes of
one invocation is either "an exception was raised" or "a response with this
text content came back", modelled by `CallResult`.  A client handle that was
never initialized is `none` in `GenEnv`. -/

/-- What one provider-SDK invocation looks like from the calling code:
either it raises (network, quota, malformed request, ...) or it produces a
response whose text content is `content`. -/
inductive CallResult where
  | raised
  | ok (content : String)
deriving DecidableEq, Repr

/-- The provider handles and per-call collaborator outcomes that one
`generate_text` call can observe.  `xxxClient = false` models an
uninitialized (`None`) client handle; `azureDeployment = false` models
`deployment_name` resolving to a falsy value. -/
structure GenEnv where
  geminiClient : Bool
  openaiClient : Bool
  azureClient : Bool
  azureDeployment : Bool
  geminiResult : CallResult
  openaiResult : CallResult
  azureResult : CallResult
deriving DecidableEq, Repr

/-- One iteration of the provider loop in `generate_text`: `some text` is a
`return` from inside the loop, `none` means the iteration fell through (no
usable handle, missing Azure deployment name, unknown service name, or the
call raised and the `except` clause logged and continued).  Gemini returns
`response.content` as-is; the Azure and OpenAI branches return
`...message.content.strip()`. -/
def attemptService (env : GenEnv) (name : String) : Option String :=
  if name = "gemini" then
    if env.geminiClient then
      match env.geminiResult with
      | .raised => none
      | .ok s => some s
    else none
  else if name = "azure" then
    if env.azureClient then
      if env.azureDeployment then
        match env.azureResult with
        | .raised => none
        | .ok s => some (pyStrip s)
      else none
    else none
  else if name = "openai" then
    if env.openaiClient then
      match env.openaiResult with
      | .raised => none
      | .ok s => some (pyStrip s)
    else none
  else none

/-- Lines 31–35: the attempt order is the configured
`service_preference_order`, with `service_preference` popped to the front
when it is already present, and inserted at the front otherwise.  A falsy
(empty) preference leaves the order unchanged, like the Python truthiness
test `if service_preference`. -/
def buildServiceOrder (order : List String) (pref : Option String) : List String :=
  match pref with
  | none => order
  | some p =>
    if p = "" then order
    else if p ∈ order then p :: order.erase p
    else p :: order

/-- The provider loop: first `return` wins, exhausting the list yields
`None` (line 104). -/
def generate_text (env : GenEnv) (order : List String) (pref : Option String) :
    Option String :=
  (buildServiceOrder order pref).findSome? (attemptService env)

/-! ## TweetAnalyzer — `check_if_thread_with_llm`
(`src/features/analyzer/service.py`, lines 55–95)

The tweet argument is `Option`al because the Python guard is
`if not tweet or not tweet.text_content`; the LLM response is the oracle
`response_text` (what `llm_service.generate_text` returned for the thread
prompt; `none` models a `None` return). -/

/-- The scraped-tweet record (`src/data_models.py`), restricted to the
fields the embedded core reads. -/
structure ScrapedTweetE where
  tweet_id : String
  user_handle : Option String
  text_content : String
  like_count : Nat
  retweet_count : Nat
  has_embedded_media : Bool
  is_thread_candidate : Bool
deriving DecidableEq, Repr

/-- `TweetAnalyzer.check_if_thread_with_llm`: `True` only when the stripped,
lowercased response is the string `true`; a falsy response (`None` or `""`)
and any other answer give `False`. -/
def check_if_thread_with_llm (tweet : Option ScrapedTweetE)
    (response_text : Option String) : Bool :=
  match tweet with
  | none => false
  | some t =>
    if t.text_content = "" then false
    else
      match response_text with
      | none => false
      | some r =>
        if r = "" then false
        else
          let ans := pyLower (pyStrip r)
          if ans = "true" then true
          else if ans = "false" then false
          else false

/-! ## DecisionEngine — heuristic tier of `_decide_competitor_action`
(`src/main.py`, lines 76–83) -/

/-- The heuristic relevance/sentiment → action mapping (`main.py` 77–83).
Sentiment is the string `classify_sentiment` returned; thresholds and the
relevance score are the Python floats, as `ℚ`. -/
def heuristic_action (quote_min retweet_min repost_min : ℚ)
    (rel : ℚ) (sentiment : String) : String :=
  if quote_min ≤ rel ∧ (sentiment = "positive" ∨ sentiment = "neutral") then
    "quote_tweet"
  else if retweet_min ≤ rel ∧ (sentiment = "positive" ∨ sentiment = "neutral") then
    "retweet"
  else if repost_min ≤ rel then "repost"
  else "like"

/-- The strength order the spec imposes on actions:
like < repost < retweet < quote_tweet. -/
def actionStrength : String → Nat
  | "repost" => 1
  | "retweet" => 2
  | "quote_tweet" => 3
  | _ => 0

/-! ## AccountScheduler — the per-account pipelines of
`TwitterOrchestrator._process_account` (`src/main.py`)

The orchestrator's mutable context is the in-memory
`processed_action_keys` set plus the durable CSV the `FileHandler` appends
to; both are carried in `LedgerState`.  What each pipeline *does* is
recorded as a `TraceOp` list: one `.exec` per collaborator action attempt
(like / repost / retweet / quote_tweet / reply, with the posted text for
replies), one `.durableWrite` per `save_processed_action_key` call (with
its boolean outcome) and one `.memAdd` per `processed_action_keys.add`, in
program order.  Analyzer scores, the structured decision, executor outcomes
and filesystem outcomes are oracles in the pipeline environments. -/

/-- The scheduler's shared ledger context: the in-memory key set
(`processed_action_keys`; Python `set`, here a list with membership) and
the durable CSV rows `(action_key, timestamp)`. -/
structure LedgerState where
  mem : List String
  rows : List (String × String)
deriving DecidableEq, Repr

/-- One observable step of a pipeline, in program order. -/
inductive TraceOp where
  | exec (action : String) (tweet_id : String) (ok : Bool) (text : Option String)
  | durableWrite (key : String) (ok : Bool)
  | memAdd (key : String)
deriving DecidableEq, Repr

/-- `action_key = f"{interaction_type}_{account_id}_{tweet_id}"`
(`main.py` 201, 291, 443). -/
def actionKey (itype acct tid : String) : String :=
  itype ++ "_" ++ acct ++ "_" ++ tid

/-- The own-tweet guard of `main.py` 296 and 448:
`user_handle and account_id.lower() in user_handle.lower()`
(a `None` or empty handle is falsy, so the guard fails). -/
def isOwnTweet (acct : String) (t : ScrapedTweetE) : Bool :=
  match t.user_handle with
  | none => false
  | some h => h ≠ "" && pyIn (pyLower acct) (pyLower h)

/-- Configuration and collaborator oracles of the competitor pipeline
(`main.py` 171–268): resolved settings, the analyzer's relevance score,
the decision `_decide_competitor_action` produced, each executor
collaborator's outcome per interaction type, and the filesystem outcome of
`save_processed_action_key`. -/
structure CompetitorEnv where
  account_id : String
  max_posts_per_competitor_run : Nat
  enable_relevance_filter : Bool
  relevance_threshold : ℚ
  score_relevance : ScrapedTweetE → ℚ
  repost_only_tweets_with_media : Bool
  min_likes_for_repost_candidate : Nat
  min_retweets_for_repost_candidate : Nat
  decide_action : ScrapedTweetE → String
  exec_ok : String → ScrapedTweetE → Bool
  save_ok : String → Bool
  now_iso : String

/-- Prepends this step's observable operations to a recursive result. -/
def consOps (ops : List TraceOp) (r : LedgerState × Nat × List TraceOp) :
    LedgerState × Nat × List TraceOp :=
  (r.1, r.2.1, ops ++ r.2.2)

/-- The ledger state after a successful action (`main.py` 260–262 and its
twins): `save_processed_action_key` appends a durable row when the write
succeeds (`wrote`), and the in-memory add happens unconditionally. -/
def recordKey (st : LedgerState) (key ts : String) (wrote : Bool) : LedgerState :=
  ⟨st.mem ++ [key], st.rows ++ (if wrote then [(key, ts)] else [])⟩

/-- `posts_made_this_profile` after a successful competitor interaction
(`main.py` 263–264): bumped unless the interaction was a like. -/
def bumpPosts (itype : String) (n : Nat) : Nat :=
  if itype = "like" then n else n + 1

/-- The inner candidate loop of the competitor pipeline (`main.py`
172–268) over one profile's scraped tweets, threading the ledger state and
`posts_made_this_profile`.  The thread-analysis sub-call (207–211) only
mutates the candidate's `is_confirmed_thread` flag and is dropped.  An
unrecognized interaction type is logged and skipped with no execution
(256–258).  On success the durable write (261) precedes the in-memory add
(262), and the add is unconditional. -/
def competitorLoop (env : CompetitorEnv) :
    List ScrapedTweetE → LedgerState → Nat → LedgerState × Nat × List TraceOp
  | [], st, n => (st, n, [])
  | t :: ts, st, n =>
    if env.max_posts_per_competitor_run ≤ n then (st, n, [])
    else if env.enable_relevance_filter ∧
        env.score_relevance t < env.relevance_threshold then
      competitorLoop env ts st n
    else if env.repost_only_tweets_with_media ∧ ¬ t.has_embedded_media then
      competitorLoop env ts st n
    else if t.like_count < env.min_likes_for_repost_candidate then
      competitorLoop env ts st n
    else if t.retweet_count < env.min_retweets_for_repost_candidate then
      competitorLoop env ts st n
    else if actionKey (env.decide_action t) env.account_id t.tweet_id ∈ st.mem then
      competitorLoop env ts st n
    else if env.decide_action t ≠ "like" ∧ env.decide_action t ≠ "repost" ∧
        env.decide_action t ≠ "retweet" ∧ env.decide_action t ≠ "quote_tweet" then
      competitorLoop env ts st n
    else if env.exec_ok (env.decide_action t) t then
      consOps
        [.exec (env.decide_action t) t.tweet_id true none,
         .durableWrite (actionKey (env.decide_action t) env.account_id t.tweet_id)
           (env.save_ok (actionKey (env.decide_action t) env.account_id t.tweet_id)),
         .memAdd (actionKey (env.decide_action t) env.account_id t.tweet_id)]
        (competitorLoop env ts
          (recordKey st (actionKey (env.decide_action t) env.account_id t.tweet_id)
            env.now_iso
            (env.save_ok (actionKey (env.decide_action t) env.account_id t.tweet_id)))
          (bumpPosts (env.decide_action t) n))
    else
      consOps [.exec (env.decide_action t) t.tweet_id false none]
        (competitorLoop env ts st n)

/-- The competitor pipeline over all configured profiles (`main.py`
162–268): `posts_made_this_profile` restarts at 0 per profile; the ledger
state threads through.  `scrape` is the scraper collaborator. -/
def competitorRun (env : CompetitorEnv) (scrape : String → List ScrapedTweetE) :
    List String → LedgerState → LedgerState × List TraceOp
  | [], st => (st, [])
  | p :: ps, st =>
    ((competitorRun env scrape ps (competitorLoop env (scrape p) st 0).1).1,
     (competitorLoop env (scrape p) st 0).2.2 ++
       (competitorRun env scrape ps (competitorLoop env (scrape p) st 0).1).2)

/-- Configuration and oracles of the keyword-reply pipeline (`main.py`
275–371).  `age_skip` models the `reply_only_to_recent_tweets_hours`
guard (300–305: hours configured, `created_at` present, and the computed
age exceeding the limit); `gen_reply` is what `llm_service.generate_text`
returned for the reply prompt. -/
structure ReplyEnv where
  account_id : String
  max_replies_per_keyword_run : Nat
  avoid_replying_to_own_tweets : Bool
  age_skip : ScrapedTweetE → Bool
  gen_reply : ScrapedTweetE → Option String
  enable_relevance_filter : Bool
  relevance_threshold : ℚ
  score_relevance : ScrapedTweetE → ℚ
  reply_ok : ScrapedTweetE → String → Bool
  save_ok : String → Bool
  now_iso : String

/-- The per-keyword candidate loop of the reply pipeline (`main.py`
287–370).  Generation failure (`None` or `""`, line 334) skips the
candidate; the generated text is hard-capped to 270 characters and
right-stripped (line 338) *before* the optional relevance filter and the
`reply_to_tweet` call; on success write-then-add, on failure the ledger is
untouched. -/
def replyLoop (env : ReplyEnv) :
    List ScrapedTweetE → LedgerState → Nat → LedgerState × Nat × List TraceOp
  | [], st, n => (st, n, [])
  | t :: ts, st, n =>
    if env.max_replies_per_keyword_run ≤ n then (st, n, [])
    else if actionKey "reply" env.account_id t.tweet_id ∈ st.mem then
      replyLoop env ts st n
    else if env.avoid_replying_to_own_tweets ∧ isOwnTweet env.account_id t then
      replyLoop env ts st n
    else if env.age_skip t then replyLoop env ts st n
    else if env.gen_reply t = none ∨ env.gen_reply t = some "" then
      replyLoop env ts st n
    else if env.enable_relevance_filter ∧
        env.score_relevance t < env.relevance_threshold then
      replyLoop env ts st n
    else if env.reply_ok t (pyRstrip (pyTake 270 ((env.gen_reply t).getD ""))) then
      consOps
        [.exec "reply" t.tweet_id true
           (some (pyRstrip (pyTake 270 ((env.gen_reply t).getD "")))),
         .durableWrite (actionKey "reply" env.account_id t.tweet_id)
           (env.save_ok (actionKey "reply" env.account_id t.tweet_id)),
         .memAdd (actionKey "reply" env.account_id t.tweet_id)]
        (replyLoop env ts
          (recordKey st (actionKey "reply" env.account_id t.tweet_id) env.now_iso
            (env.save_ok (actionKey "reply" env.account_id t.tweet_id)))
          (n + 1))
    else
      consOps
        [.exec "reply" t.tweet_id false
           (some (pyRstrip (pyTake 270 ((env.gen_reply t).getD ""))))]
        (replyLoop env ts st n)

/-- The reply pipeline over all target keywords (`main.py` 277–371):
`replies_made_this_keyword` restarts at 0 per keyword. -/
def replyRun (env : ReplyEnv) (scrape : String → List ScrapedTweetE) :
    List String → LedgerState → LedgerState × List TraceOp
  | [], st => (st, [])
  | kw :: kws, st =>
    ((replyRun env scrape kws (replyLoop env (scrape kw) st 0).1).1,
     (replyLoop env (scrape kw) st 0).2.2 ++
       (replyRun env scrape kws (replyLoop env (scrape kw) st 0).1).2)

/-- Configuration and oracles of the liking pipeline (`main.py` 424–479). -/
structure LikeEnv where
  account_id : String
  max_likes_per_run : Nat
  avoid_replying_to_own_tweets : Bool
  enable_relevance_filter : Bool
  relevance_threshold : ℚ
  score_relevance : ScrapedTweetE → ℚ
  like_ok : ScrapedTweetE → Bool
  save_ok : String → Bool
  now_iso : String

/-- The per-keyword candidate loop of the liking pipeline (`main.py`
439–479): `likes_done_this_run` is global across keywords. -/
def likeLoop (env : LikeEnv) :
    List ScrapedTweetE → LedgerState → Nat → LedgerState × Nat × List TraceOp
  | [], st, n => (st, n, [])
  | t :: ts, st, n =>
    if env.max_likes_per_run ≤ n then (st, n, [])
    else if actionKey "like" env.account_id t.tweet_id ∈ st.mem then
      likeLoop env ts st n
    else if env.avoid_replying_to_own_tweets ∧ isOwnTweet env.account_id t then
      likeLoop env ts st n
    else if env.enable_relevance_filter ∧
        env.score_relevance t < env.relevance_threshold then
      likeLoop env ts st n
    else if env.like_ok t then
      consOps
        [.exec "like" t.tweet_id true none,
         .durableWrite (actionKey "like" env.account_id t.tweet_id)
           (env.save_ok (actionKey "like" env.account_id t.tweet_id)),
         .memAdd (actionKey "like" env.account_id t.tweet_id)]
        (likeLoop env ts
          (recordKey st (actionKey "like" env.account_id t.tweet_id) env.now_iso
            (env.save_ok (actionKey "like" env.account_id t.tweet_id)))
          (n + 1))
    else
      consOps [.exec "like" t.tweet_id false none] (likeLoop env ts st n)

/-- The liking pipeline over its keywords (`main.py` 430–479): the `break`
on `max_likes_per_run` guards each keyword before scraping, and the
counter threads across keywords. -/
def likeRun (env : LikeEnv) (scrape : String → List ScrapedTweetE) :
    List String → LedgerState → Nat → LedgerState × Nat × List TraceOp
  | [], st, n => (st, n, [])
  | kw :: kws, st, n =>
    if env.max_likes_per_run ≤ n then (st, n, [])
    else
      consOps (likeLoop env (scrape kw) st n).2.2
        (likeRun env scrape kws (likeLoop env (scrape kw) st n).1
          (likeLoop env (scrape kw) st n).2.1)

/-- Configuration and oracles of the keyword-retweet pipeline (`main.py`
376–411).  Note there is no ledger access of any kind in this pipeline's
source: no `action_key` is built, `processed_action_keys` is never
consulted and `save_processed_action_key` is never called. -/
structure KwRetweetEnv where
  account_id : String
  max_retweets_per_keyword_run : Nat
  enable_relevance_filter : Bool
  relevance_threshold : ℚ
  score_relevance : ScrapedTweetE → ℚ
  retweet_ok : ScrapedTweetE → Bool

/-- The per-keyword candidate loop of the keyword-retweet pipeline
(`main.py` 386–410): relevance filter, then `retweet_tweet`; successes
only bump the per-keyword counter.  It reads and writes no ledger state. -/
def keywordRetweetLoop (env : KwRetweetEnv) :
    List ScrapedTweetE → Nat → Nat × List TraceOp
  | [], n => (n, [])
  | t :: ts, n =>
    if env.max_retweets_per_keyword_run ≤ n then (n, [])
    else if env.enable_relevance_filter ∧
        env.score_relevance t < env.relevance_threshold then
      keywordRetweetLoop env ts n
    else if env.retweet_ok t then
      ((keywordRetweetLoop env ts (n + 1)).1,
       .exec "retweet" t.tweet_id true none :: (keywordRetweetLoop env ts (n + 1)).2)
    else
      ((keywordRetweetLoop env ts n).1,
       .exec "retweet" t.tweet_id false none :: (keywordRetweetLoop env ts n).2)

/-- The keyword-retweet pipeline over its keywords (`main.py` 378–410):
`retweets_made` restarts at 0 per keyword. -/
def keywordRetweetRun (env : KwRetweetEnv) (scrape : String → List ScrapedTweetE) :
    List String → List TraceOp
  | [] => []
  | kw :: kws =>
    (keywordRetweetLoop env (scrape kw) 0).2 ++ keywordRetweetRun env scrape kws

/-! ## IdempotencyLedger — `FileHandler.load_processed_action_keys`
(`src/utils/file_handler.py`, lines 65–124)

`datetime.fromisoformat` is a stdlib collaborator; it is modelled
abstractly by an oracle `fromiso : String → Option PyDateTime`, where a
`PyDateTime` carries exactly what the loader reads off the parsed value:
its `.date()` (as an abstract ordinal, compared only for equality) and
whether it is timezone-aware.  `replace(tzinfo=utc)` flips the awareness
flag and leaves `.date()` unchanged, as in CPython. -/

/-- What `load_processed_action_keys` observes of a parsed
`datetime`: its calendar date (an ordinal; only `=` is used) and whether
`tzinfo` is set. -/
structure PyDateTime where
  dateOrd : Int
  aware : Bool
deriving DecidableEq, Repr

/-- `replace(tzinfo=timezone.utc)` applied to naive values (line 107–108):
the awareness flag is set, the calendar date untouched. -/
def utcAssume (dt : PyDateTime) : PyDateTime :=
  if dt.aware then dt else ⟨dt.dateOrd, true⟩

/-- One iteration of the loader's main row loop (lines 97–115): skip empty
or short rows, parse the timestamp entry (a `ValueError` drops the row),
assume UTC when the parsed value is naive, and keep the key when the date
is today's. -/
def loadStep (idx : Nat) (todayUtc : Int) (fromiso : String → Option PyDateTime)
    (keys : Finset String) (row : List String) : Finset String :=
  match row with
  | [] => keys
  | k :: _ =>
    if row.length ≤ idx then keys
    else
      match row.get? idx with
      | none => keys
      | some ts =>
        match fromiso ts with
        | none => keys
        | some dt =>
          if (utcAssume dt).dateOrd = todayUtc then insert k keys
          else keys

/-- One iteration of the no-timestamp-column fallback loop (lines 92–93):
every nonempty row's first field is kept. -/
def loadAllStep (keys : Finset String) (row : List String) : Finset String :=
  match row with
  | [] => keys
  | k :: _ => insert k keys

/-- `load_processed_action_keys`, over the CSV contents: the head row is
the header (`None` for an empty file); each later row contributes its
first field when it is long enough to hold a timestamp entry that parses
to a datetime whose date equals today's UTC date (naive values are assumed
UTC).  When the header has no `timestamp` column the `ValueError` fallback
(lines 89–95) loads *every* nonempty row's first field, with no day
filter. -/
def load_processed_action_keys (csvRows : List (List String)) (todayUtc : Int)
    (fromiso : String → Option PyDateTime) : Finset String :=
  match csvRows with
  | [] => ∅
  | header :: dataRows =>
    if "timestamp" ∈ header then
      dataRows.foldl
        (loadStep (header.findIdx (· == "timestamp")) todayUtc fromiso) ∅
    else
      dataRows.foldl loadAllStep ∅

/-- Modelled from the spec ("scans the persisted log, keeping only entries
whose timestamp falls on the current UTC calendar day; entries with
unparsable timestamps are dropped rather than assumed duplicate"): the set
of first fields of rows whose timestamp entry parses to a datetime on
today's UTC date.  A log whose header declares no timestamp column has no
entry with a well-formed timestamp, so no entry qualifies.
`specRowKey` is the per-row comprehension; `loadTodaysKeysSpec` collects it. -/
def specRowKey (idx : Nat) (todayUtc : Int) (fromiso : String → Option PyDateTime)
    (row : List String) : Option String :=
  match row.head?, row.get? idx with
  | some k, some ts =>
    match fromiso ts with
    | some dt => if dt.dateOrd = todayUtc then some k else none
    | none => none
  | _, _ => none

def loadTodaysKeysSpec (csvRows : List (List String)) (todayUtc : Int)
    (fromiso : String → Option PyDateTime) : Finset String :=
  match csvRows with
  | [] => ∅
  | header :: dataRows =>
    if "timestamp" ∈ header then
      (dataRows.filterMap
        (specRowKey (header.findIdx (· == "timestamp")) todayUtc fromiso)).toFinset
    else ∅

/-! ## Harvester — `TweetScraper.scrape_tweets_from_url`
(`src/features/scraper/service.py`, lines 65–176)

The page is a collaborator: `batches i` is the card list
`_get_tweet_cards_from_page` returns on the loop's `i`-th pass (over an
abstract card type `α`), `parse` is `parse_tweet_card`, and `scroll i` is
`scroller.scroll_page()`'s outcome after pass `i`.  The `while` loop is
embedded with explicit fuel: `none` means the fuel ran out with the loop
still running, `some collected` that the loop exited and the function
returned `collected`. -/

/-- The inner card loop (lines 111–133): each card is first gated on
`len(scraped_tweets) >= max_tweets`, then parsed; a parse failure or an
already-seen id is dropped.  Returns the grown collection, the seen-id
set, and `new_tweets_found_this_scroll`. -/
def absorbCards {α : Type} (parse : α → Option ScrapedTweetE) (maxT : Nat) :
    List α → List ScrapedTweetE → List String → Nat →
    List ScrapedTweetE × List String × Nat
  | [], col, seen, new => (col, seen, new)
  | c :: cs, col, seen, new =>
    if maxT ≤ col.length then (col, seen, new)
    else
      match parse c with
      | none => absorbCards parse maxT cs col seen new
      | some t =>
        if t.tweet_id ∈ seen then absorbCards parse maxT cs col seen new
        else absorbCards parse maxT cs (col ++ [t]) (seen ++ [t.tweet_id]) (new + 1)

/-- `scroll_attempts_with_no_new_tweets` after a pass that found `new`
tweets (lines 135–143): bumped when the pass found none, reset to 0
otherwise. -/
def nextStall (new stall : Nat) : Nat :=
  if new = 0 then stall + 1 else 0

/-- The scrape `while` loop (lines 93–172).  An empty card batch counts a
stall, checks the stall limit, then scrolls (lines 96–108); a non-empty
batch is absorbed, the stall counter is bumped or reset by
`new_tweets_found_this_scroll` (135–143), and the loop stops on the stall
limit (145–151), on `max_tweets` (153–155), or when the scroller reports
no further content (157–159). -/
def scrapeLoop {α : Type} (batches : Nat → List α) (scroll : Nat → Bool)
    (parse : α → Option ScrapedTweetE) (maxT stall_limit : Nat) :
    Nat → List ScrapedTweetE → List String → Nat → Nat →
    Option (List ScrapedTweetE)
  | 0, _, _, _, _ => none
  | fuel + 1, col, seen, stall, pass =>
    if maxT ≤ col.length then some col
    else if (batches pass).isEmpty then
      if stall_limit ≤ stall + 1 then some col
      else if scroll pass then
        scrapeLoop batches scroll parse maxT stall_limit fuel col seen (stall + 1) (pass + 1)
      else some col
    else
      if stall_limit ≤ nextStall (absorbCards parse maxT (batches pass) col seen 0).2.2 stall
      then some (absorbCards parse maxT (batches pass) col seen 0).1
      else if maxT ≤ (absorbCards parse maxT (batches pass) col seen 0).1.length then
        some (absorbCards parse maxT (batches pass) col seen 0).1
      else if scroll pass then
        scrapeLoop batches scroll parse maxT stall_limit fuel
          (absorbCards parse maxT (batches pass) col seen 0).1
          (absorbCards parse maxT (batches pass) col seen 0).2.1
          (nextStall (absorbCards parse maxT (batches pass) col seen 0).2.2 stall)
          (pass + 1)
      else some (absorbCards parse maxT (batches pass) col seen 0).1

/-! ## Structured-output extraction — `extract_json_from_response_text`
(`src/core/llm_service/parsing.py`, lines 6–48)

`json.loads` and `re.search` are stdlib collaborators and are modelled
operationally:

* `PyJson` is the value universe and `jparse`/`jsonLoadsL` a JSON parser
  for it, standing in for `json.loads` on the fragment the claims range
  over (integer numbers, escape-free strings); the fuel argument only
  makes totality structural.
* `fenceSearch` is the match of
  `re.compile(r"```json\s*(.*?)```", DOTALL | IGNORECASE)`: the earliest
  `` ```json `` occurrence (case-insensitive) with a later closing
  `` ``` ``, keeping the shortest group.  Since the group is `.strip()`ed
  afterwards, the `\s*` prefix of the pattern is absorbed into the strip.
* the balanced-brace scan and the smart-quote/backtick cleanup are direct
  translations of lines 19–31 and 39–44. -/

/-- A parsed JSON value (`json.loads` output), with numbers restricted to
integers — the only numbers this development's inputs contain. -/
inductive PyJson where
  | null
  | bool (b : Bool)
  | int (n : Int)
  | str (s : String)
  | arr (items : List PyJson)
  | obj (members : List (String × PyJson))

/-- JSON insignificant whitespace, skipped between tokens. -/
def jskip : List Char → List Char
  | [] => []
  | c :: r =>
    if c == ' ' || c == '\t' || c == '\n' || c == '\r' then jskip r else c :: r

/-- The body of a JSON string after its opening quote, up to the closing
quote (escape sequences are outside the modelled fragment). -/
def strBody : List Char → Option (List Char × List Char)
  | [] => none
  | c :: r =>
    if c == '"' then some ([], r)
    else (strBody r).map (fun p => (c :: p.1, p.2))

/-- The leading run of decimal digits and the remainder. -/
def digitSpan : List Char → List Char × List Char
  | [] => ([], [])
  | c :: r =>
    if c.isDigit then
      let p := digitSpan r
      (c :: p.1, p.2)
    else ([], c :: r)

/-- The number a digit run denotes. -/
def digitsVal (ds : List Char) : Nat :=
  ds.foldl (fun a c => a * 10 + (c.toNat - '0'.toNat)) 0

/-- An unsigned JSON integer: a nonempty digit run not continued by a
fraction or exponent (floats are outside the modelled fragment). -/
def numNat (cs : List Char) : Option (Nat × List Char) :=
  if (digitSpan cs).1 = [] then none
  else
    match (digitSpan cs).2 with
    | '.' :: _ => none
    | 'e' :: _ => none
    | 'E' :: _ => none
    | r => some (digitsVal (digitSpan cs).1, r)

/-- A JSON integer with its optional sign. -/
def numParse (cs : List Char) : Option (Int × List Char) :=
  if cs.head? = some '-' then (numNat cs.tail).map (fun p => (-(p.1 : Int), p.2))
  else (numNat cs).map (fun p => ((p.1 : Int), p.2))

mutual

/-- One JSON value at the head of the input (after whitespace), returning
the remainder; `fuel` only bounds recursion depth. -/
def jparse : Nat → List Char → Option (PyJson × List Char)
  | 0, _ => none
  | fuel + 1, cs =>
    match jskip cs with
    | 'n' :: 'u' :: 'l' :: 'l' :: r => some (.null, r)
    | 't' :: 'r' :: 'u' :: 'e' :: r => some (.bool true, r)
    | 'f' :: 'a' :: 'l' :: 's' :: 'e' :: r => some (.bool false, r)
    | '"' :: r => (strBody r).map (fun p => (.str p.1.asString, p.2))
    | '[' :: r =>
      (match jskip r with
       | ']' :: r2 => some (.arr [], r2)
       | r2 => (jitems fuel r2).map (fun p => (.arr p.1, p.2)))
    | '{' :: r =>
      (match jskip r with
       | '}' :: r2 => some (.obj [], r2)
       | r2 => (jpairs fuel r2).map (fun p => (.obj p.1, p.2)))
    | c :: r =>
      if c == '-' || c.isDigit then (numParse (c :: r)).map (fun p => (.int p.1, p.2))
      else none
    | [] => none

/-- One or more comma-separated array items, through the closing `]`. -/
def jitems : Nat → List Char → Option (List PyJson × List Char)
  | 0, _ => none
  | fuel + 1, cs =>
    (jparse fuel cs).bind (fun v =>
      match jskip v.2 with
      | ',' :: r2 => (jitems fuel r2).map (fun p => (v.1 :: p.1, p.2))
      | ']' :: r2 => some ([v.1], r2)
      | _ => none)

/-- One or more `"key": value` members, through the closing `}`. -/
def jpairs : Nat → List Char → Option (List (String × PyJson) × List Char)
  | 0, _ => none
  | fuel + 1, cs =>
    match jskip cs with
    | '"' :: r =>
      (strBody r).bind (fun k =>
        match jskip k.2 with
        | ':' :: r2 =>
          (jparse fuel r2).bind (fun v =>
            match jskip v.2 with
            | ',' :: r4 => (jpairs fuel r4).map (fun p => ((k.1.asString, v.1) :: p.1, p.2))
            | '}' :: r4 => some ([(k.1.asString, v.1)], r4)
            | _ => none)
        | _ => none)
    | _ => none

end

/-- `json.loads` on a character list: a single document followed only by
whitespace.  The starting fuel exceeds any recursion depth the input can
force, since every `jparse`/`jitems`/`jpairs` call site has consumed at
least one character of input. -/
def jsonLoadsL (cs : List Char) : Option PyJson :=
  match jparse (cs.length + 1) cs with
  | none => none
  | some (v, r) => if jskip r = [] then some v else none

/-- `json.loads` on a string. -/
def jsonLoads (s : String) : Option PyJson := jsonLoadsL s.toList

/-! ### The canonical rendering of a `PyJson` value

The compact serialization of a value — what "a response consisting of J"
denotes in the claims. -/

/-- The digit character of `d < 10`. -/
def digitChar (d : Nat) : Char := Char.ofNat ('0'.toNat + d)

/-- Decimal digits of a natural, most significant first. -/
def natDigits (n : Nat) : List Char :=
  if n < 10 then [digitChar n]
  else natDigits (n / 10) ++ [digitChar (n % 10)]
termination_by n
decreasing_by exact Nat.div_lt_self (by omega) (by norm_num)

/-- An integer's characters: sign, then decimal digits. -/
def intChars (n : Int) : List Char :=
  if n < 0 then '-' :: natDigits n.natAbs else natDigits n.natAbs

mutual

/-- Render one value, compactly. -/
def renderV : PyJson → List Char
  | .null => 'n' :: ['u', 'l', 'l']
  | .bool true => 't' :: ['r', 'u', 'e']
  | .bool false => 'f' :: ['a', 'l', 's', 'e']
  | .int n => intChars n
  | .str s => '"' :: s.toList ++ ['"']
  | .arr xs => '[' :: renderItems xs ++ [']']
  | .obj ms => '{' :: renderPairs ms ++ ['}']

/-- Render array items, comma-separated. -/
def renderItems : List PyJson → List Char
  | [] => []
  | [x] => renderV x
  | x :: y :: xs => renderV x ++ ',' :: renderItems (y :: xs)

/-- Render object members, comma-separated. -/
def renderPairs : List (String × PyJson) → List Char
  | [] => []
  | [(k, v)] => '"' :: k.toList ++ '"' :: ':' :: renderV v
  | (k, v) :: m :: ms =>
    '"' :: k.toList ++ '"' :: ':' :: renderV v ++ ',' :: renderPairs (m :: ms)

end

/-- A character that may appear inside a rendered string literal without
interfering with any stage of the extractor: not a quote or backslash (so
the literal needs no escapes), not a brace (so the depth-counted scan is
honest), not a backtick or smart punctuation (so the cleanup pass is
inert), and not a control character (which strict `json.loads` rejects). -/
def plainChar (c : Char) : Bool :=
  !(c == '"' || c == '\\' || c == '{' || c == '}' || c == '`' ||
    c == '“' || c == '”' || c == '’') && decide (32 ≤ c.toNat)

mutual

/-- Well-formedness for the claims: every string (keys and values) is made
of `plainChar`s. -/
def wfV : PyJson → Bool
  | .null => true
  | .bool _ => true
  | .int _ => true
  | .str s => s.toList.all plainChar
  | .arr xs => wfItems xs
  | .obj ms => wfPairs ms

/-- `wfV` over array items. -/
def wfItems : List PyJson → Bool
  | [] => true
  | x :: xs => wfV x && wfItems xs

/-- `wfV` over object members. -/
def wfPairs : List (String × PyJson) → Bool
  | [] => true
  | (k, v) :: ms => k.toList.all plainChar && wfV v && wfPairs ms

end

/-! ### The extractor itself -/

/-- Case-insensitive prefix match (the effect of `re.IGNORECASE`). -/
def startsWithCI : List Char → List Char → Bool
  | [], _ => true
  | _ :: _, [] => false
  | n :: ns, h :: hs => n.toLower == h.toLower && startsWithCI ns hs

/-- Index of the first case-insensitive occurrence of `needle`. -/
def findCI (needle : List Char) : List Char → Option Nat
  | [] => if needle = [] then some 0 else none
  | c :: rest =>
    if startsWithCI needle (c :: rest) then some 0
    else (findCI needle rest).map (· + 1)

/-- The group matched by `` re.search(r"```json\s*(.*?)```", ...) ``:
after the first `` ```json ``, everything up to the next `` ``` ``.
(The regex would retry a later `` ```json `` if the first had no closing
fence; no input in this development has two opening fences, and the
`.strip()` applied to the group afterwards absorbs the pattern's `\s*`.) -/
def fenceSearch (text : List Char) : Option (List Char) :=
  match findCI ("```json".toList) text with
  | none => none
  | some i =>
    let rest := text.drop (i + 7)
    match findCI ("```".toList) rest with
    | none => none
    | some j => some (rest.take j)

/-- The depth-counted scan of lines 22–31, from a position whose character
is `{`: accumulate until the `}` that returns the depth to zero. -/
def braceSpan : List Char → Nat → List Char → Option (List Char)
  | [], _, _ => none
  | c :: rest, depth, acc =>
    if c == '{' then braceSpan rest (depth + 1) (c :: acc)
    else if c == '}' then
      if depth = 1 then some (c :: acc).reverse
      else braceSpan rest (depth - 1) (c :: acc)
    else braceSpan rest depth (c :: acc)

/-- `text.find('{')` followed by the depth-counted scan: the first
balanced `\x7b...\x7d` span, if any. -/
def firstBraceSpan : List Char → Option (List Char)
  | [] => none
  | c :: rest =>
    if c == '{' then braceSpan (c :: rest) 0 [] else firstBraceSpan rest

/-- The cleanup pass of lines 39–44: smart double quotes to `"`, smart
apostrophe to `'`, backticks removed.  The sequential `str.replace` calls
commute into one character map followed by the backtick filter. -/
def smartSub (c : Char) : Char :=
  if c == '“' then '"' else if c == '”' then '"' else if c == '’' then '\'' else c

/-- `candidate.replace('“','"').replace('”','"').replace('’',"'").replace('`','')`. -/
def cleanupChars (cs : List Char) : List Char :=
  (cs.map smartSub).filter (fun c => ¬ c == '`')

/-- `extract_json_from_response_text` (lines 6–48), with `json.loads`
modelled by `jsonLoadsL`.  The error-message channel of the Python tuple
is not modelled; `none` covers every `(None, err)` return. -/
def extract_json_from_response_text (text : String) : Option PyJson :=
  if text = "" then none
  else
    let cand : Option (List Char) :=
      match fenceSearch text.toList with
      | some g => some (pyStripL g)
      | none => firstBraceSpan text.toList
    match cand with
    | none => none
    | some c =>
      if c = [] then none
      else
        match jsonLoadsL c with
        | some v => some v
        | none => jsonLoadsL (cleanupChars c)

/-- The smart-quote corruption the claim quantifies over: every straight
double quote replaced by a smart one. -/
def smartQuoted (cs : List Char) : List Char :=
  cs.map (fun c => if c == '"' then '“' else c)

/-- A remainder that cannot continue a JSON number: empty, or starting
with something that is neither a digit nor `.`/`e`/`E`.  Every separator
of the rendered grammar (`,`, `]`, `\x7d`, end of input) qualifies. -/
def sepOk : List Char → Bool
  | [] => true
  | c :: _ => !(c.isDigit || c == '.' || c == 'e' || c == 'E')

/-- Modelled from the spec: "a response consisting of J inside a ```json
fenced block" — the fence, a newline, the rendered object, a newline, the
closing fence. -/
def fenceWrap (body : List Char) : List Char :=
  "```json".toList ++ '\n' :: body ++ '\n' :: "```".toList

/-- A character that the cleanup pass of lines 39–44 leaves alone: not a
smart quote, smart apostrophe or backtick.  Every character of the
rendering of a well-formed value is tame. -/
def tameChar (c : Char) : Bool :=
  !(c == '“' || c == '”' || c == '’' || c == '`')

/-! # Theorems -/

/-! ## Shared list lemmas -/

theorem findSome?_append_of_none {α β : Type} (f : α → Option β)
    {pre : List α} (rest : List α) (h : ∀ x ∈ pre, f x = none) :
    (pre ++ rest).findSome? f = rest.findSome? f := by
  induction pre with
  | nil => rfl
  | cons a as ih =>
    have ha : f a = none := h a (by simp)
    simp only [List.cons_append, List.findSome?_cons, ha]
    exact ih (fun x hx => h x (by simp [hx]))

theorem findSome?_eq_some_split {α β : Type} (f : α → Option β) :
    ∀ (l : List α) (b : β), l.findSome? f = some b →
      ∃ pre x post, l = pre ++ x :: post ∧ (∀ y ∈ pre, f y = none) ∧ f x = some b := by
  intro l
  induction l with
  | nil => intro b h; simp [List.findSome?] at h
  | cons a as ih =>
    intro b h
    rw [List.findSome?_cons] at h
    cases ha : f a with
    | some v =>
      rw [ha] at h
      refine ⟨[], a, as, by simp, by simp, ?_⟩
      simpa [ha] using h
    | none =>
      rw [ha] at h
      obtain ⟨pre, x, post, hsplit, hpre, hx⟩ := ih b h
      exact ⟨a :: pre, x, post, by simp [hsplit], by
        intro y hy
        rcases List.mem_cons.mp hy with rfl | hy'
        · exact ha
        · exact hpre y hy', hx⟩

/-! ## C3 — provider attempt order and failure isolation -/

/-- C3: the attempt order is the configured default order with the given
(truthy) `service_preference` moved to the front — popped to the front when
present, inserted at the front when absent — and one provider's
unusability or failure never aborts the call: whenever the built order
splits as `pre ++ b :: post` with every provider in `pre` failing and `b`
succeeding with `s`, the call returns `s`. -/
theorem claim_C3 :
    (∀ (order : List String) (p : String), p ≠ "" → p ∈ order →
      buildServiceOrder order (some p) = p :: order.erase p)
    ∧ (∀ (order : List String) (p : String), p ≠ "" → p ∉ order →
      buildServiceOrder order (some p) = p :: order)
    ∧ (∀ (env : GenEnv) (order : List String) (pref : Option String)
        (pre : List String) (b : String) (post : List String) (s : String),
        buildServiceOrder order pref = pre ++ b :: post →
        (∀ x ∈ pre, attemptService env x = none) →
        attemptService env b = some s →
        generate_text env order pref = some s) := by
  refine ⟨?_, ?_, ?_⟩
  · intro order p hne hmem
    simp [buildServiceOrder, hne, hmem]
  · intro order p hne hmem
    simp [buildServiceOrder, hne, hmem]
  · intro env order pref pre b post s hsplit hpre hb
    unfold generate_text
    rw [hsplit, findSome?_append_of_none _ _ hpre, List.findSome?_cons, hb]

/-- Witness for C3 at the spec's own scenario: order
`[azure, openai, gemini]`, only `openai` usable (it answers `" hello "`,
stripped to `"hello"`); the call uses `openai` and succeeds. -/
theorem claim_C3_witness :
    generate_text ⟨false, true, false, false, .raised, .ok " hello ", .raised⟩
      ["azure", "openai", "gemini"] none = some "hello" := by
  refine claim_C3.2.2 _ _ none ["azure"] "openai" ["gemini"] "hello" rfl ?_ rfl
  intro x hx
  have : x = "azure" := by simpa using hx
  subst this
  rfl

/-! ## C2 — first successful result; the non-empty guarantee fails -/

/-- C2 counterexample: with a single configured provider (`azure`) whose
call succeeds with content `""`, `generate_text` returns `some ""` — an
empty string — contradicting "it never returns an empty string" and
"returns the first successful *non-empty* text result". -/
theorem claim_C2_counterexample :
    generate_text ⟨false, false, true, true, .raised, .raised, .ok ""⟩
      ["azure"] none = some "" := rfl

/-- C2 (amended): `generate_text` returns the *first successful* text
result in the attempt order — with no non-emptiness check, so the result
may be the empty string — and returns none exactly when every provider in
the attempt order is exhausted (unusable, misconfigured, or raising),
in particular when none are configured. -/
theorem claim_C2 :
    ∀ (env : GenEnv) (order : List String) (pref : Option String),
      (generate_text env order pref = none ↔
        ∀ x ∈ buildServiceOrder order pref, attemptService env x = none)
      ∧ (∀ s : String, generate_text env order pref = some s →
          ∃ pre b post, buildServiceOrder order pref = pre ++ b :: post ∧
            (∀ y ∈ pre, attemptService env y = none) ∧
            attemptService env b = some s) := by
  intro env order pref
  constructor
  · exact List.findSome?_eq_none_iff
  · intro s h
    exact findSome?_eq_some_split _ _ s h

/-- Witness for C2, applying the amended theorem at the counterexample
input: the empty-string success decomposes as "no earlier provider,
`azure` succeeded with `""`". -/
theorem claim_C2_witness :
    ∃ pre b post,
      buildServiceOrder ["azure"] none = pre ++ b :: post ∧
      (∀ y ∈ pre,
        attemptService ⟨false, false, true, true, .raised, .raised, .ok ""⟩ y = none) ∧
      attemptService ⟨false, false, true, true, .raised, .raised, .ok ""⟩ b = some "" :=
  (claim_C2 ⟨false, false, true, true, .raised, .raised, .ok ""⟩ ["azure"] none).2 "" rfl

/-! ## C9 — conservative thread confirmation -/

/-- C9: the thread-confirmation sub-call answers `true` exactly when the
candidate exists with non-empty text and the model's response, stripped
and lowercased, is exactly `"true"`; an absent or empty response, any
other answer, and an empty-text candidate all give `false`. -/
theorem claim_C9 :
    ∀ (tw : Option ScrapedTweetE) (resp : Option String),
      check_if_thread_with_llm tw resp = true ↔
        ∃ t r, tw = some t ∧ t.text_content ≠ "" ∧ resp = some r ∧ r ≠ "" ∧
          pyLower (pyStrip r) = "true" := by
  intro tw resp
  cases tw with
  | none => simp [check_if_thread_with_llm]
  | some t =>
    cases resp with
    | none => simp [check_if_thread_with_llm]
    | some r =>
      simp only [check_if_thread_with_llm]
      split_ifs with h1 h2 h3 h4
      · simp [h1]
      · simp [h2]
      · simp only [true_iff]
        exact ⟨t, r, rfl, h1, rfl, h2, h3⟩
      · simp only [false_iff]
        rintro ⟨t', r', ht, _, hr, -, htrue⟩
        cases ht; cases hr
        exact absurd htrue h3
      · simp only [false_iff]
        rintro ⟨t', r', ht, -, hr, -, htrue⟩
        cases ht; cases hr
        exact absurd htrue h3

/-- Witness for C9: a padded, capitalized `" True "` answer confirms the
thread for a candidate with text. -/
theorem claim_C9_witness :
    check_if_thread_with_llm (some ⟨"t1", none, "some text", 0, 0, false, true⟩)
      (some " True ") = true :=
  (claim_C9 (some ⟨"t1", none, "some text", 0, 0, false, true⟩) (some " True ")).mpr
    ⟨_, _, rfl, by decide, rfl, by decide, rfl⟩

/-! ## C5 — heuristic decision monotone in relevance -/

/-- C5: in the heuristic tier, for a fixed sentiment in
{positive, neutral} and fixed thresholds, the chosen action's strength
(like < repost < retweet < quote_tweet) is monotone in the relevance
score. -/
theorem claim_C5 :
    ∀ (quote_min retweet_min repost_min r1 r2 : ℚ) (s : String),
      (s = "positive" ∨ s = "neutral") → r1 ≤ r2 →
      actionStrength (heuristic_action quote_min retweet_min repost_min r1 s) ≤
        actionStrength (heuristic_action quote_min retweet_min repost_min r2 s) := by
  intro q rt rp r1 r2 s hs h12
  unfold heuristic_action
  split_ifs with h1 h2 h3 h4 h5 h6 h7 h8 h9 h10 h11 h12' <;>
    simp_all [actionStrength] <;> linarith

/-- Witness for C5 at the spec's scenario values: with thresholds
0.75/0.5/0.35 and positive sentiment, raising relevance from 0.2 to 0.8
cannot weaken the action. -/
theorem claim_C5_witness :
    actionStrength (heuristic_action (3/4) (1/2) (7/20) (1/5) "positive") ≤
      actionStrength (heuristic_action (3/4) (1/2) (7/20) (4/5) "positive") :=
  claim_C5 (3/4) (1/2) (7/20) (1/5) (4/5) "positive" (Or.inl rfl) (by norm_num)

/-! ## Scheduler-pipeline lemmas (used by C10, C1, C8) -/

theorem replyLoop_exec_text (env : ReplyEnv) :
    ∀ (cands : List ScrapedTweetE) (st : LedgerState) (n : Nat)
      (a i : String) (ok : Bool) (txt : Option String),
      TraceOp.exec a i ok txt ∈ (replyLoop env cands st n).2.2 →
      a = "reply" ∧ ∃ g, g ≠ "" ∧ txt = some (pyRstrip (pyTake 270 g)) ∧
        ∃ t, env.gen_reply t = some g := by
  intro cands
  induction cands with
  | nil =>
    intro st n a i ok txt h
    simp [replyLoop] at h
  | cons t ts ih =>
    intro st n a i ok txt h
    rw [replyLoop] at h
    split_ifs at h with h1 h2 h3 h4 h5 h6 h7
    · simp at h
    · exact ih _ _ _ _ _ _ h
    · exact ih _ _ _ _ _ _ h
    · exact ih _ _ _ _ _ _ h
    · exact ih _ _ _ _ _ _ h
    · exact ih _ _ _ _ _ _ h
    · simp only [consOps, List.cons_append, List.nil_append, List.mem_cons] at h
      rcases h with h | h | h | h
      · cases h
        push_neg at h5
        cases hg : env.gen_reply t with
        | none => exact absurd hg h5.1
        | some g =>
          refine ⟨rfl, g, ?_, rfl, t, hg⟩
          intro hge
          exact h5.2 (by rw [hg, hge])
      · cases h
      · cases h
      · exact ih _ _ _ _ _ _ h
    · simp only [consOps, List.cons_append, List.nil_append, List.mem_cons] at h
      rcases h with h | h
      · cases h
        push_neg at h5
        cases hg : env.gen_reply t with
        | none => exact absurd hg h5.1
        | some g =>
          refine ⟨rfl, g, ?_, rfl, t, hg⟩
          intro hge
          exact h5.2 (by rw [hg, hge])
      · exact ih _ _ _ _ _ _ h

theorem replyRun_exec_text (env : ReplyEnv) (scrape : String → List ScrapedTweetE) :
    ∀ (kws : List String) (st : LedgerState)
      (a i : String) (ok : Bool) (txt : Option String),
      TraceOp.exec a i ok txt ∈ (replyRun env scrape kws st).2 →
      a = "reply" ∧ ∃ g, g ≠ "" ∧ txt = some (pyRstrip (pyTake 270 g)) ∧
        ∃ t, env.gen_reply t = some g := by
  intro kws
  induction kws with
  | nil =>
    intro st a i ok txt h
    simp [replyRun] at h
  | cons kw kws ih =>
    intro st a i ok txt h
    rw [replyRun] at h
    rcases List.mem_append.mp h with h' | h'
    · exact replyLoop_exec_text env _ _ _ _ _ _ _ h'
    · exact ih _ _ _ _ _ h'

theorem pyRstrip_length_le (s : String) : (pyRstrip s).length ≤ s.length := by
  have h1 : (s.toList.reverse.dropWhile isPyWs).Sublist s.toList.reverse :=
    List.dropWhile_sublist _
  have h2 := h1.length_le
  simp only [pyRstrip]
  calc ((s.toList.reverse.dropWhile isPyWs).reverse).asString.length
      = (s.toList.reverse.dropWhile isPyWs).reverse.length := rfl
    _ = (s.toList.reverse.dropWhile isPyWs).length := List.length_reverse _
    _ ≤ s.toList.reverse.length := h2
    _ = s.toList.length := List.length_reverse _
    _ = s.length := rfl

theorem pyTake_length_le (n : Nat) (s : String) : (pyTake n s).length ≤ n := by
  have : (pyTake n s).length = (s.toList.take n).length := rfl
  rw [this, List.length_take]
  exact min_le_left _ _

/-! ## C10 — hard cap on reply length -/

/-- C10: in the keyword-reply pipeline, the text of every reply attempt
handed to the executor is the generation gateway's output truncated to its
first 270 characters and right-stripped, and is at most 270 characters
long. -/
theorem claim_C10 :
    ∀ (env : ReplyEnv) (scrape : String → List ScrapedTweetE) (kws : List String)
      (st : LedgerState) (a i : String) (ok : Bool) (txt : Option String),
      TraceOp.exec a i ok txt ∈ (replyRun env scrape kws st).2 →
      ∃ g t, env.gen_reply t = some g ∧ txt = some (pyRstrip (pyTake 270 g)) ∧
        (pyRstrip (pyTake 270 g)).length ≤ 270 := by
  intro env scrape kws st a i ok txt h
  obtain ⟨-, g, -, htxt, t, hg⟩ := replyRun_exec_text env scrape kws st a i ok txt h
  exact ⟨g, t, hg, htxt,
    le_trans (pyRstrip_length_le _) (pyTake_length_le _ _)⟩

/-- Witness for C10: a concrete reply run (one keyword, one candidate,
generation returns `"hi"`) whose single reply attempt carries text
`"hi"` = `rstrip("hi"[:270])`, within the cap. -/
theorem claim_C10_witness :
    ∃ g t,
      (fun _ : ScrapedTweetE => some "hi") t = some g ∧
      (some "hi" : Option String) = some (pyRstrip (pyTake 270 g)) ∧
      (pyRstrip (pyTake 270 g)).length ≤ 270 :=
  claim_C10
    ⟨"acct1", 5, true, fun _ => false, fun _ => some "hi", false, 0, fun _ => 1,
      fun _ _ => true, fun _ => false, "2026-01-01T00:00:00"⟩
    (fun _ => [⟨"t1", some "other", "hello", 10, 10, false, false⟩]) ["kw"]
    ⟨[], []⟩ "reply" "t1" true (some "hi") (by decide)

/-! ## Ledger-consultation lemmas, per pipeline (used by C1) -/

theorem recordKey_mem_sub (st : LedgerState) (key ts : String) (w : Bool) :
    st.mem ⊆ (recordKey st key ts w).mem :=
  List.subset_append_left _ _

theorem recordKey_mem_self (st : LedgerState) (key ts : String) (w : Bool) :
    key ∈ (recordKey st key ts w).mem :=
  List.mem_append_right _ (List.mem_singleton_self _)

theorem competitorLoop_mem_mono (env : CompetitorEnv) :
    ∀ (cands : List ScrapedTweetE) (st : LedgerState) (n : Nat),
      st.mem ⊆ (competitorLoop env cands st n).1.mem := by
  intro cands
  induction cands with
  | nil =>
    intro st n
    rw [competitorLoop]
    exact List.Subset.refl _
  | cons t ts ih =>
    intro st n
    rw [competitorLoop]
    split_ifs
    all_goals first
      | exact List.Subset.refl _
      | exact ih _ _
      | exact List.Subset.trans (recordKey_mem_sub _ _ _ _) (ih _ _)

theorem competitorLoop_exec_keys (env : CompetitorEnv) :
    ∀ (cands : List ScrapedTweetE) (st : LedgerState) (n : Nat)
      (a i : String) (ok : Bool) (txt : Option String),
      TraceOp.exec a i ok txt ∈ (competitorLoop env cands st n).2.2 →
      actionKey a env.account_id i ∉ st.mem ∧
        (ok = true →
          actionKey a env.account_id i ∈ (competitorLoop env cands st n).1.mem) := by
  intro cands
  induction cands with
  | nil =>
    intro st n a i ok txt h
    simp [competitorLoop] at h
  | cons t ts ih =>
    intro st n a i ok txt h
    rw [competitorLoop] at h ⊢
    split_ifs at h ⊢ with h1 h2 h3 h4 h5 h6 h7 h8
    · simp at h
    · exact ih _ _ _ _ _ _ h
    · exact ih _ _ _ _ _ _ h
    · exact ih _ _ _ _ _ _ h
    · exact ih _ _ _ _ _ _ h
    · exact ih _ _ _ _ _ _ h
    · exact ih _ _ _ _ _ _ h
    · simp only [consOps, List.cons_append, List.nil_append, List.mem_cons] at h
      rcases h with h | h | h | h
      · cases h
        refine ⟨h6, fun _ => ?_⟩
        exact competitorLoop_mem_mono env ts _ _ (recordKey_mem_self _ _ _ _)
      · cases h
      · cases h
      · obtain ⟨hnot, hin⟩ := ih _ _ _ _ _ _ h
        exact ⟨fun hmem => hnot (recordKey_mem_sub _ _ _ _ hmem), hin⟩
    · simp only [consOps, List.cons_append, List.nil_append, List.mem_cons] at h
      rcases h with h | h
      · cases h
        exact ⟨h6, fun hcontra => by cases hcontra⟩
      · exact ih _ _ _ _ _ _ h

theorem competitorRun_mem_mono (env : CompetitorEnv)
    (scrape : String → List ScrapedTweetE) :
    ∀ (ps : List String) (st : LedgerState),
      st.mem ⊆ (competitorRun env scrape ps st).1.mem := by
  intro ps
  induction ps with
  | nil =>
    intro st
    rw [competitorRun]
    exact List.Subset.refl _
  | cons p ps ih =>
    intro st
    rw [competitorRun]
    exact List.Subset.trans (competitorLoop_mem_mono env _ st 0) (ih _)

theorem competitorRun_exec_keys (env : CompetitorEnv)
    (scrape : String → List ScrapedTweetE) :
    ∀ (ps : List String) (st : LedgerState)
      (a i : String) (ok : Bool) (txt : Option String),
      TraceOp.exec a i ok txt ∈ (competitorRun env scrape ps st).2 →
      actionKey a env.account_id i ∉ st.mem ∧
        (ok = true →
          actionKey a env.account_id i ∈ (competitorRun env scrape ps st).1.mem) := by
  intro ps
  induction ps with
  | nil =>
    intro st a i ok txt h
    simp [competitorRun] at h
  | cons p ps ih =>
    intro st a i ok txt h
    rw [competitorRun] at h ⊢
    rcases List.mem_append.mp h with h' | h'
    · obtain ⟨hnot, hin⟩ := competitorLoop_exec_keys env _ _ _ _ _ _ _ h'
      exact ⟨hnot, fun hok => competitorRun_mem_mono env scrape ps _ (hin hok)⟩
    · obtain ⟨hnot, hin⟩ := ih _ _ _ _ _ h'
      exact ⟨fun hmem => hnot (competitorLoop_mem_mono env _ _ _ hmem), hin⟩

theorem replyLoop_mem_mono (env : ReplyEnv) :
    ∀ (cands : List ScrapedTweetE) (st : LedgerState) (n : Nat),
      st.mem ⊆ (replyLoop env cands st n).1.mem := by
  intro cands
  induction cands with
  | nil =>
    intro st n
    rw [replyLoop]
    exact List.Subset.refl _
  | cons t ts ih =>
    intro st n
    rw [replyLoop]
    split_ifs
    all_goals first
      | exact List.Subset.refl _
      | exact ih _ _
      | exact List.Subset.trans (recordKey_mem_sub _ _ _ _) (ih _ _)

theorem replyLoop_exec_keys (env : ReplyEnv) :
    ∀ (cands : List ScrapedTweetE) (st : LedgerState) (n : Nat)
      (a i : String) (ok : Bool) (txt : Option String),
      TraceOp.exec a i ok txt ∈ (replyLoop env cands st n).2.2 →
      actionKey a env.account_id i ∉ st.mem ∧
        (ok = true →
          actionKey a env.account_id i ∈ (replyLoop env cands st n).1.mem) := by
  intro cands
  induction cands with
  | nil =>
    intro st n a i ok txt h
    simp [replyLoop] at h
  | cons t ts ih =>
    intro st n a i ok txt h
    rw [replyLoop] at h ⊢
    split_ifs at h ⊢ with h1 h2 h3 h4 h5 h6 h7
    · simp at h
    · exact ih _ _ _ _ _ _ h
    · exact ih _ _ _ _ _ _ h
    · exact ih _ _ _ _ _ _ h
    · exact ih _ _ _ _ _ _ h
    · exact ih _ _ _ _ _ _ h
    · simp only [consOps, List.cons_append, List.nil_append, List.mem_cons] at h
      rcases h with h | h | h | h
      · cases h
        refine ⟨h2, fun _ => ?_⟩
        exact replyLoop_mem_mono env ts _ _ (recordKey_mem_self _ _ _ _)
      · cases h
      · cases h
      · obtain ⟨hnot, hin⟩ := ih _ _ _ _ _ _ h
        exact ⟨fun hmem => hnot (recordKey_mem_sub _ _ _ _ hmem), hin⟩
    · simp only [consOps, List.cons_append, List.nil_append, List.mem_cons] at h
      rcases h with h | h
      · cases h
        exact ⟨h2, fun hcontra => by cases hcontra⟩
      · exact ih _ _ _ _ _ _ h

theorem replyRun_mem_mono (env : ReplyEnv) (scrape : String → List ScrapedTweetE) :
    ∀ (kws : List String) (st : LedgerState),
      st.mem ⊆ (replyRun env scrape kws st).1.mem := by
  intro kws
  induction kws with
  | nil =>
    intro st
    rw [replyRun]
    exact List.Subset.refl _
  | cons kw kws ih =>
    intro st
    rw [replyRun]
    exact List.Subset.trans (replyLoop_mem_mono env _ st 0) (ih _)

theorem replyRun_exec_keys (env : ReplyEnv) (scrape : String → List ScrapedTweetE) :
    ∀ (kws : List String) (st : LedgerState)
      (a i : String) (ok : Bool) (txt : Option String),
      TraceOp.exec a i ok txt ∈ (replyRun env scrape kws st).2 →
      actionKey a env.account_id i ∉ st.mem ∧
        (ok = true →
          actionKey a env.account_id i ∈ (replyRun env scrape kws st).1.mem) := by
  intro kws
  induction kws with
  | nil =>
    intro st a i ok txt h
    simp [replyRun] at h
  | cons kw kws ih =>
    intro st a i ok txt h
    rw [replyRun] at h ⊢
    rcases List.mem_append.mp h with h' | h'
    · obtain ⟨hnot, hin⟩ := replyLoop_exec_keys env _ _ _ _ _ _ _ h'
      exact ⟨hnot, fun hok => replyRun_mem_mono env scrape kws _ (hin hok)⟩
    · obtain ⟨hnot, hin⟩ := ih _ _ _ _ _ h'
      exact ⟨fun hmem => hnot (replyLoop_mem_mono env _ _ _ hmem), hin⟩

theorem likeLoop_mem_mono (env : LikeEnv) :
    ∀ (cands : List ScrapedTweetE) (st : LedgerState) (n : Nat),
      st.mem ⊆ (likeLoop env cands st n).1.mem := by
  intro cands
  induction cands with
  | nil =>
    intro st n
    rw [likeLoop]
    exact List.Subset.refl _
  | cons t ts ih =>
    intro st n
    rw [likeLoop]
    split_ifs
    all_goals first
      | exact List.Subset.refl _
      | exact ih _ _
      | exact List.Subset.trans (recordKey_mem_sub _ _ _ _) (ih _ _)

theorem likeLoop_exec_keys (env : LikeEnv) :
    ∀ (cands : List ScrapedTweetE) (st : LedgerState) (n : Nat)
      (a i : String) (ok : Bool) (txt : Option String),
      TraceOp.exec a i ok txt ∈ (likeLoop env cands st n).2.2 →
      actionKey a env.account_id i ∉ st.mem ∧
        (ok = true →
          actionKey a env.account_id i ∈ (likeLoop env cands st n).1.mem) := by
  intro cands
  induction cands with
  | nil =>
    intro st n a i ok txt h
    simp [likeLoop] at h
  | cons t ts ih =>
    intro st n a i ok txt h
    rw [likeLoop] at h ⊢
    split_ifs at h ⊢ with h1 h2 h3 h4 h5
    · simp at h
    · exact ih _ _ _ _ _ _ h
    · exact ih _ _ _ _ _ _ h
    · exact ih _ _ _ _ _ _ h
    · simp only [consOps, List.cons_append, List.nil_append, List.mem_cons] at h
      rcases h with h | h | h | h
      · cases h
        refine ⟨h2, fun _ => ?_⟩
        exact likeLoop_mem_mono env ts _ _ (recordKey_mem_self _ _ _ _)
      · cases h
      · cases h
      · obtain ⟨hnot, hin⟩ := ih _ _ _ _ _ _ h
        exact ⟨fun hmem => hnot (recordKey_mem_sub _ _ _ _ hmem), hin⟩
    · simp only [consOps, List.cons_append, List.nil_append, List.mem_cons] at h
      rcases h with h | h
      · cases h
        exact ⟨h2, fun hcontra => by cases hcontra⟩
      · exact ih _ _ _ _ _ _ h

theorem likeRun_mem_mono (env : LikeEnv) (scrape : String → List ScrapedTweetE) :
    ∀ (kws : List String) (st : LedgerState) (n : Nat),
      st.mem ⊆ (likeRun env scrape kws st n).1.mem := by
  intro kws
  induction kws with
  | nil =>
    intro st n
    rw [likeRun]
    exact List.Subset.refl _
  | cons kw kws ih =>
    intro st n
    rw [likeRun]
    split_ifs with h1
    · exact List.Subset.refl _
    · simp only [consOps]
      exact List.Subset.trans (likeLoop_mem_mono env _ st n) (ih _ _)

theorem likeRun_exec_keys (env : LikeEnv) (scrape : String → List ScrapedTweetE) :
    ∀ (kws : List String) (st : LedgerState) (n : Nat)
      (a i : String) (ok : Bool) (txt : Option String),
      TraceOp.exec a i ok txt ∈ (likeRun env scrape kws st n).2.2 →
      actionKey a env.account_id i ∉ st.mem ∧
        (ok = true →
          actionKey a env.account_id i ∈ (likeRun env scrape kws st n).1.mem) := by
  intro kws
  induction kws with
  | nil =>
    intro st n a i ok txt h
    simp [likeRun] at h
  | cons kw kws ih =>
    intro st n a i ok txt h
    rw [likeRun] at h ⊢
    split_ifs at h ⊢ with h1
    · simp at h
    · simp only [consOps] at h ⊢
      rcases List.mem_append.mp h with h' | h'
      · obtain ⟨hnot, hin⟩ := likeLoop_exec_keys env _ _ _ _ _ _ _ h'
        exact ⟨hnot, fun hok => likeRun_mem_mono env scrape kws _ _ (hin hok)⟩
      · obtain ⟨hnot, hin⟩ := ih _ _ _ _ _ _ h'
        exact ⟨fun hmem => hnot (likeLoop_mem_mono env _ _ _ hmem), hin⟩

/-! ## C1 — at-most-once execution against the ledger -/

/-- C1 counterexample: the keyword-retweet pipeline (`main.py` 376–411)
never consults the ledger, so with the ledger already containing
`retweet_acct1_t1` its run still executes a retweet of candidate `t1` for
account `acct1` — refuting "for every action kind ... the scheduler
consults the ledger before executing the action". -/
theorem claim_C1_counterexample :
    actionKey "retweet" "acct1" "t1" ∈
      (⟨["retweet_acct1_t1"], [("retweet_acct1_t1", "2026-02-03T09:00:00")]⟩ :
        LedgerState).mem
    ∧ TraceOp.exec "retweet" "t1" true none ∈
        keywordRetweetRun ⟨"acct1", 2, false, 0, fun _ => 1, fun _ => true⟩
          (fun _ => [⟨"t1", some "other", "hello", 10, 10, false, false⟩]) ["kw"] := by
  constructor
  · decide
  · decide

/-- C1 (amended): the competitor, keyword-reply and liking pipelines do
consult the in-memory ledger before every execution and record the key
after a successful one: every executed attempt's action key was absent
from the ledger the run started with, and every successful attempt's key
is in the final in-memory ledger.  The keyword-retweet pipeline is the
exception: it neither consults nor updates the ledger (see the
counterexample), so its retweets are not deduplicated at all. -/
theorem claim_C1 :
    (∀ (env : CompetitorEnv) (scrape : String → List ScrapedTweetE)
       (profiles : List String) (st : LedgerState)
       (a i : String) (ok : Bool) (txt : Option String),
       TraceOp.exec a i ok txt ∈ (competitorRun env scrape profiles st).2 →
       actionKey a env.account_id i ∉ st.mem ∧
         (ok = true →
           actionKey a env.account_id i ∈ (competitorRun env scrape profiles st).1.mem))
    ∧ (∀ (env : ReplyEnv) (scrape : String → List ScrapedTweetE)
       (kws : List String) (st : LedgerState)
       (a i : String) (ok : Bool) (txt : Option String),
       TraceOp.exec a i ok txt ∈ (replyRun env scrape kws st).2 →
       actionKey a env.account_id i ∉ st.mem ∧
         (ok = true →
           actionKey a env.account_id i ∈ (replyRun env scrape kws st).1.mem))
    ∧ (∀ (env : LikeEnv) (scrape : String → List ScrapedTweetE)
       (kws : List String) (st : LedgerState) (n : Nat)
       (a i : String) (ok : Bool) (txt : Option String),
       TraceOp.exec a i ok txt ∈ (likeRun env scrape kws st n).2.2 →
       actionKey a env.account_id i ∉ st.mem ∧
         (ok = true →
           actionKey a env.account_id i ∈ (likeRun env scrape kws st n).1.mem)) :=
  ⟨fun env scrape profiles st a i ok txt h =>
      competitorRun_exec_keys env scrape profiles st a i ok txt h,
   fun env scrape kws st a i ok txt h =>
      replyRun_exec_keys env scrape kws st a i ok txt h,
   fun env scrape kws st n a i ok txt h =>
      likeRun_exec_keys env scrape kws st n a i ok txt h⟩

/-- Witness for C1 on a concrete reply run: the successful reply to `t1`
was not pre-ledgered, and its key is recorded afterwards. -/
theorem claim_C1_witness :
    actionKey "reply" "acct1" "t1" ∉ (⟨[], []⟩ : LedgerState).mem ∧
      (true = true →
        actionKey "reply" "acct1" "t1" ∈
          (replyRun
            ⟨"acct1", 5, true, fun _ => false, fun _ => some "hi", false, 0, fun _ => 1,
              fun _ _ => true, fun _ => true, "2026-02-03T09:00:00"⟩
            (fun _ => [⟨"t1", some "other", "hello", 10, 10, false, false⟩]) ["kw"]
            ⟨[], []⟩).1.mem) :=
  claim_C1.2.1
    ⟨"acct1", 5, true, fun _ => false, fun _ => some "hi", false, 0, fun _ => 1,
      fun _ _ => true, fun _ => true, "2026-02-03T09:00:00"⟩
    (fun _ => [⟨"t1", some "other", "hello", 10, 10, false, false⟩]) ["kw"]
    ⟨[], []⟩ "reply" "t1" true (some "hi") (by decide)

/-! ## C8 — failure leaves the ledger alone; success writes then adds -/

/-- C8 counterexample: a successful competitor interaction whose durable
write fails (`save_processed_action_key` returns `False`, `main.py` 261)
still adds the key to the in-memory set (262): afterwards the key is
marked done in memory while the durable log is unchanged — refuting "the
key is never marked done in memory when the durable write fails". -/
theorem claim_C8_counterexample :
    (competitorLoop
        ⟨"acct1", 5, false, 0, fun _ => 1, false, 0, 0, fun _ => "repost",
          fun _ _ => true, fun _ => false, "2026-02-03T09:00:00"⟩
        [⟨"t1", some "other", "hello", 10, 10, false, false⟩] ⟨[], []⟩ 0).1
      = ⟨["repost_acct1_t1"], []⟩
    ∧ TraceOp.memAdd "repost_acct1_t1" ∈
        (competitorLoop
          ⟨"acct1", 5, false, 0, fun _ => 1, false, 0, 0, fun _ => "repost",
            fun _ _ => true, fun _ => false, "2026-02-03T09:00:00"⟩
          [⟨"t1", some "other", "hello", 10, 10, false, false⟩] ⟨[], []⟩ 0).2.2 := by
  constructor
  · rfl
  · decide

/-- C8 (amended): for a competitor candidate that reaches the execution
stage (caps and filters passed, key unledgered, interaction type
recognized): on executor failure neither the durable ledger nor the
in-memory set changes and only the failed attempt is traced (the loop
simply continues); on success the durable write is attempted before the
in-memory add — but the add is unconditional, so when the durable write
fails the key is still marked done in memory, while the durable rows are
unchanged. -/
theorem claim_C8 :
    ∀ (env : CompetitorEnv) (st : LedgerState) (n : Nat) (t : ScrapedTweetE),
      ¬ env.max_posts_per_competitor_run ≤ n →
      ¬ (env.enable_relevance_filter ∧
          env.score_relevance t < env.relevance_threshold) →
      ¬ (env.repost_only_tweets_with_media ∧ ¬ t.has_embedded_media) →
      ¬ t.like_count < env.min_likes_for_repost_candidate →
      ¬ t.retweet_count < env.min_retweets_for_repost_candidate →
      actionKey (env.decide_action t) env.account_id t.tweet_id ∉ st.mem →
      ¬ (env.decide_action t ≠ "like" ∧ env.decide_action t ≠ "repost" ∧
          env.decide_action t ≠ "retweet" ∧ env.decide_action t ≠ "quote_tweet") →
      (env.exec_ok (env.decide_action t) t = false →
        competitorLoop env [t] st n =
          (st, n, [.exec (env.decide_action t) t.tweet_id false none]))
      ∧ (env.exec_ok (env.decide_action t) t = true →
        competitorLoop env [t] st n =
          (recordKey st (actionKey (env.decide_action t) env.account_id t.tweet_id)
             env.now_iso
             (env.save_ok (actionKey (env.decide_action t) env.account_id t.tweet_id)),
           bumpPosts (env.decide_action t) n,
           [.exec (env.decide_action t) t.tweet_id true none,
            .durableWrite (actionKey (env.decide_action t) env.account_id t.tweet_id)
              (env.save_ok (actionKey (env.decide_action t) env.account_id t.tweet_id)),
            .memAdd (actionKey (env.decide_action t) env.account_id t.tweet_id)]))
      ∧ (∀ key ts,
          env.save_ok key = false →
            (recordKey st key ts (env.save_ok key)).rows = st.rows ∧
              key ∈ (recordKey st key ts (env.save_ok key)).mem) := by
  intro env st n t h1 h2 h3 h4 h5 h6 h7
  refine ⟨?_, ?_, ?_⟩
  · intro hex
    rw [competitorLoop]
    rw [if_neg h1, if_neg h2, if_neg h3, if_neg h4, if_neg h5, if_neg h6, if_neg h7,
      if_neg (by simp [hex])]
    rw [competitorLoop]
    rfl
  · intro hex
    rw [competitorLoop]
    rw [if_neg h1, if_neg h2, if_neg h3, if_neg h4, if_neg h5, if_neg h6, if_neg h7,
      if_pos hex]
    rw [competitorLoop]
    rfl
  · intro key ts hsave
    rw [hsave]
    exact ⟨by simp [recordKey], recordKey_mem_self st key ts false⟩

/-- Witness for C8 at the counterexample's environment: the success case
of the characterization, instantiated where the durable write fails. -/
theorem claim_C8_witness :
    competitorLoop
        ⟨"acct2", 5, false, 0, fun _ => 1, false, 0, 0, fun _ => "repost",
          fun _ _ => true, fun _ => false, "2026-02-03T09:00:00"⟩
        [⟨"t2", some "other", "hello", 10, 10, false, false⟩] ⟨[], []⟩ 0 =
      (recordKey ⟨[], []⟩ "repost_acct2_t2" "2026-02-03T09:00:00" false, 1,
       [.exec "repost" "t2" true none, .durableWrite "repost_acct2_t2" false,
        .memAdd "repost_acct2_t2"]) :=
  ((claim_C8
    ⟨"acct2", 5, false, 0, fun _ => 1, false, 0, 0, fun _ => "repost",
      fun _ _ => true, fun _ => false, "2026-02-03T09:00:00"⟩
    ⟨[], []⟩ 0 ⟨"t2", some "other", "hello", 10, 10, false, false⟩
    (by decide) (by simp) (by simp) (by decide) (by decide) (by decide)
    (by simp)).2.1) rfl

/-! ## C7 — what `load_processed_action_keys` keeps -/

theorem utcAssume_dateOrd (dt : PyDateTime) : (utcAssume dt).dateOrd = dt.dateOrd := by
  obtain ⟨d, aw⟩ := dt
  cases aw <;> rfl

theorem loadStep_mem (idx : Nat) (today : Int)
    (fromiso : String → Option PyDateTime) (keys : Finset String)
    (row : List String) (x : String) :
    x ∈ loadStep idx today fromiso keys row ↔
      x ∈ keys ∨ specRowKey idx today fromiso row = some x := by
  cases row with
  | nil => simp [loadStep, specRowKey]
  | cons k rest =>
    simp only [loadStep, specRowKey, List.head?]
    by_cases hlen : (k :: rest).length ≤ idx
    · have hnone : (k :: rest).get? idx = none := List.get?_eq_none.mpr hlen
      rw [if_pos hlen, hnone]
      simp
    · rw [if_neg hlen]
      cases hget : (k :: rest).get? idx with
      | none => exact absurd (List.get?_eq_none.mp hget) hlen
      | some ts =>
        cases hiso : fromiso ts with
        | none => simp [hiso]
        | some dt =>
          simp only [hiso, utcAssume_dateOrd]
          by_cases hd : dt.dateOrd = today
          · rw [if_pos hd, if_pos hd]
            simp only [Finset.mem_insert, Option.some.injEq, eq_comm]
            exact or_comm
          · rw [if_neg hd, if_neg hd]
            simp

theorem loader_foldl_mem (idx : Nat) (today : Int)
    (fromiso : String → Option PyDateTime) :
    ∀ (rows : List (List String)) (acc : Finset String) (x : String),
      x ∈ rows.foldl (loadStep idx today fromiso) acc ↔
        x ∈ acc ∨ x ∈ (rows.filterMap (specRowKey idx today fromiso)).toFinset := by
  intro rows
  induction rows with
  | nil => simp
  | cons row rows ih =>
    intro acc x
    rw [List.foldl_cons, ih, loadStep_mem]
    simp only [List.filterMap_cons]
    cases hrow : specRowKey idx today fromiso row with
    | none => simp
    | some k =>
      simp only [List.toFinset_cons, Finset.mem_insert]
      constructor
      · rintro ((hx | hx) | hx)
        · exact Or.inl hx
        · exact Or.inr (Or.inl (Option.some.inj hx).symm)
        · exact Or.inr (Or.inr hx)
      · rintro (hx | hx | hx)
        · exact Or.inl (Or.inl hx)
        · exact Or.inl (Or.inr (by rw [hx]))
        · exact Or.inr hx

theorem loadAll_foldl_mem :
    ∀ (rows : List (List String)) (acc : Finset String) (x : String),
      x ∈ rows.foldl loadAllStep acc ↔
        x ∈ acc ∨ x ∈ (rows.filterMap List.head?).toFinset := by
  intro rows
  induction rows with
  | nil => simp
  | cons row rows ih =>
    intro acc x
    rw [List.foldl_cons, ih]
    cases row with
    | nil => simp [loadAllStep]
    | cons k rest =>
      simp only [loadAllStep, List.filterMap_cons, List.head?, List.toFinset_cons,
        Finset.mem_insert]
      tauto

/-- C7 counterexample: a log its own writer can produce (first save called
without a timestamp, so the header is just `action_key`) triggers the
no-timestamp-column fallback: the loader returns `k_old` although the
row's timestamp entry parses to a *different* calendar day (date 0, today
being 5) — refuting "no key from a different calendar day is returned"
and "returns exactly the set ... whose timestamp parses and falls on the
current UTC calendar day". -/
theorem claim_C7_counterexample :
    load_processed_action_keys [["action_key"], ["k_old", "2020-01-01T00:00:00"]] 5
        (fun _ => some ⟨0, true⟩) = {"k_old"}
    ∧ loadTodaysKeysSpec [["action_key"], ["k_old", "2020-01-01T00:00:00"]] 5
        (fun _ => some ⟨0, true⟩) = ∅ := by
  constructor
  · decide
  · decide

/-- C7 (amended): when the log's header has a `timestamp` column, the
loader returns exactly the keys of rows whose timestamp entry parses and
whose (UTC-assumed-when-naive) date is today's UTC date — rows with
missing or unparsable timestamps are dropped; but when the header has no
`timestamp` column, every nonempty row's key is returned with no day
filtering at all. -/
theorem claim_C7 :
    ∀ (header : List String) (dataRows : List (List String)) (today : Int)
      (fromiso : String → Option PyDateTime),
      ("timestamp" ∈ header →
        load_processed_action_keys (header :: dataRows) today fromiso =
          loadTodaysKeysSpec (header :: dataRows) today fromiso)
      ∧ ("timestamp" ∉ header →
        load_processed_action_keys (header :: dataRows) today fromiso =
          (dataRows.filterMap List.head?).toFinset) := by
  intro header dataRows today fromiso
  constructor
  · intro hmem
    rw [load_processed_action_keys, loadTodaysKeysSpec, if_pos hmem, if_pos hmem]
    ext x
    rw [loader_foldl_mem]
    simp
  · intro hmem
    rw [load_processed_action_keys, if_neg hmem]
    ext x
    rw [loadAll_foldl_mem]
    simp

/-- Witness for C7: a well-formed two-row log (`k1` stamped today, `k2`
stamped yesterday, `k3` unparsable) loads exactly the spec's set. -/
theorem claim_C7_witness :
    load_processed_action_keys
        [["action_key", "timestamp"], ["k1", "today"], ["k2", "old"], ["k3", "bad"]] 5
        (fun s => if s = "today" then some ⟨5, false⟩
                  else if s = "old" then some ⟨4, true⟩ else none) =
      loadTodaysKeysSpec
        [["action_key", "timestamp"], ["k1", "today"], ["k2", "old"], ["k3", "bad"]] 5
        (fun s => if s = "today" then some ⟨5, false⟩
                  else if s = "old" then some ⟨4, true⟩ else none) :=
  (claim_C7 ["action_key", "timestamp"] [["k1", "today"], ["k2", "old"], ["k3", "bad"]] 5
    (fun s => if s = "today" then some ⟨5, false⟩
              else if s = "old" then some ⟨4, true⟩ else none)).1 (by decide)

/-! ## C4 — harvester stall termination -/

theorem absorbCards_none {α : Type} (parse : α → Option ScrapedTweetE) (maxT : Nat) :
    ∀ (cards : List α) (col : List ScrapedTweetE) (seen : List String) (new : Nat),
      (∀ c ∈ cards, parse c = none) →
      absorbCards parse maxT cards col seen new = (col, seen, new) := by
  intro cards
  induction cards with
  | nil => intro col seen new _; rfl
  | cons c cs ih =>
    intro col seen new hall
    rw [absorbCards]
    split_ifs with h1
    · rfl
    · rw [hall c (by simp)]
      exact ih col seen new (fun d hd => hall d (by simp [hd]))

theorem scrapeLoop_stalled {α : Type} (batches : Nat → List α) (scroll : Nat → Bool)
    (parse : α → Option ScrapedTweetE) (maxT stop : Nat)
    (hnone : ∀ i c, c ∈ batches i → parse c = none) :
    ∀ (fuel stall pass : Nat) (col : List ScrapedTweetE) (seen : List String),
      stop ≤ fuel + stall → stall < stop →
      scrapeLoop batches scroll parse maxT stop fuel col seen stall pass = some col := by
  intro fuel
  induction fuel with
  | zero =>
    intro stall pass col seen hfs hs
    omega
  | succ fuel ih =>
    intro stall pass col seen hfs hs
    rw [scrapeLoop]
    rw [absorbCards_none parse maxT (batches pass) col seen 0
      (fun c hc => hnone pass c hc)]
    split_ifs with h1 h2 h3 h4 h5 h6
    · rfl
    · rfl
    · exact ih (stall + 1) (pass + 1) col seen (by omega) (by omega)
    · rfl
    · rfl
    · have h5' : stall + 1 < stop := by
        simpa [nextStall] using h5
      exact ih (stall + 1) (pass + 1) col seen (by omega) h5'
    · rfl

/-- C4: harvest stall termination.  (i) A source that never yields a
parseable item makes the harvest loop return exactly what it started with
within `maxStallScrolls` further passes — in particular
`harvest(maxItems := 50, maxStallScrolls := 5)` finishes on fuel 5 (five
stall cycles) with 0 < 50 items, for *every* fuel bound of at least 5.
(ii) A single empty pass never terminates the harvest: below the stall
limit the loop goes on to the next pass.  (iii) The source reporting no
further content (`scroll_page()` false) stops the harvest immediately. -/
theorem claim_C4 :
    (∀ {α : Type} (batches : Nat → List α) (scroll : Nat → Bool)
       (parse : α → Option ScrapedTweetE),
       (∀ i c, c ∈ batches i → parse c = none) →
       ∀ fuel, 5 ≤ fuel →
         scrapeLoop batches scroll parse 50 5 fuel [] [] 0 0 = some [] ∧
           ([] : List ScrapedTweetE).length < 50)
    ∧ (∀ {α : Type} (batches : Nat → List α) (scroll : Nat → Bool)
       (parse : α → Option ScrapedTweetE) (maxT stop fuel stall pass : Nat)
       (col : List ScrapedTweetE) (seen : List String),
       col.length < maxT → batches pass = [] → stall + 1 < stop →
       scroll pass = true →
       scrapeLoop batches scroll parse maxT stop (fuel + 1) col seen stall pass =
         scrapeLoop batches scroll parse maxT stop fuel col seen (stall + 1) (pass + 1))
    ∧ (∀ {α : Type} (batches : Nat → List α) (scroll : Nat → Bool)
       (parse : α → Option ScrapedTweetE) (maxT stop fuel stall pass : Nat)
       (col : List ScrapedTweetE) (seen : List String),
       col.length < maxT → batches pass = [] → stall + 1 < stop →
       scroll pass = false →
       scrapeLoop batches scroll parse maxT stop (fuel + 1) col seen stall pass =
         some col) := by
  refine ⟨?_, ?_, ?_⟩
  · intro α batches scroll parse hnone fuel hfuel
    exact ⟨scrapeLoop_stalled batches scroll parse 50 5 hnone fuel 0 0 [] []
      (by omega) (by omega), by norm_num⟩
  · intro α batches scroll parse maxT stop fuel stall pass col seen hcol hb hstall hscroll
    rw [scrapeLoop]
    rw [if_neg (by omega), if_pos (by simp [hb]), if_neg (by omega), if_pos hscroll]
  · intro α batches scroll parse maxT stop fuel stall pass col seen hcol hb hstall hscroll
    rw [scrapeLoop]
    rw [if_neg (by omega), if_pos (by simp [hb]), if_neg (by omega),
      if_neg (by simp [hscroll])]

/-- Witness for C4 at the spec's scenario: a source whose cards never
parse, `maxItems = 50`, `maxStallScrolls = 5`: five passes suffice and the
harvest returns no items. -/
theorem claim_C4_witness :
    scrapeLoop (fun _ => [()]) (fun _ => true) (fun _ => none) 50 5 5 [] [] 0 0
        = some [] ∧
      ([] : List ScrapedTweetE).length < 50 :=
  claim_C4.1 (fun _ => [()]) (fun _ => true) (fun _ => none)
    (fun _ _ _ => rfl) 5 (by norm_num)

/-! ## C6 groundwork: digits and numbers -/

theorem jskip_cons_not_ws {c : Char} (t : List Char)
    (h : (c == ' ' || c == '\t' || c == '\n' || c == '\r') = false) :
    jskip (c :: t) = c :: t := by
  simp [jskip, h]

theorem digitChar_isDigit {d : Nat} (h : d < 10) : (digitChar d).isDigit = true := by
  interval_cases d <;> decide

theorem digitChar_val {d : Nat} (h : d < 10) : (digitChar d).toNat = 48 + d := by
  interval_cases d <;> decide

theorem natDigits_ne_nil (n : Nat) : natDigits n ≠ [] := by
  rw [natDigits]
  split_ifs <;> simp

theorem natDigits_all_digit (n : Nat) : ∀ c ∈ natDigits n, c.isDigit = true := by
  induction n using Nat.strong_induction_on with
  | _ n ih =>
    rw [natDigits]
    split_ifs with h
    · intro c hc
      rw [List.mem_singleton] at hc
      subst hc
      exact digitChar_isDigit h
    · intro c hc
      rcases List.mem_append.mp hc with hc | hc
      · exact ih (n / 10) (Nat.div_lt_self (by omega) (by norm_num)) c hc
      · rw [List.mem_singleton] at hc
        subst hc
        exact digitChar_isDigit (Nat.mod_lt _ (by norm_num))

theorem digitSpan_digits :
    ∀ (ds rest : List Char), (∀ c ∈ ds, c.isDigit = true) →
      (∀ c, rest.head? = some c → c.isDigit = false) →
      digitSpan (ds ++ rest) = (ds, rest) := by
  intro ds
  induction ds with
  | nil =>
    intro rest _ hrest
    cases rest with
    | nil => rfl
    | cons c t =>
      rw [List.nil_append, digitSpan]
      rw [hrest c rfl]
      simp
  | cons c t ih =>
    intro rest hds hrest
    rw [List.cons_append, digitSpan, hds c (by simp)]
    rw [ih rest (fun d hd => hds d (by simp [hd])) hrest]
    simp

theorem digitsVal_natDigits (n : Nat) : digitsVal (natDigits n) = n := by
  induction n using Nat.strong_induction_on with
  | _ n ih =>
    rw [natDigits]
    split_ifs with h
    · simp [digitsVal, digitChar_val h]
    · have ihd := ih (n / 10) (Nat.div_lt_self (by omega) (by norm_num))
      have hmod : (digitChar (n % 10)).toNat = 48 + n % 10 :=
        digitChar_val (Nat.mod_lt n (by norm_num))
      simp only [digitsVal] at ihd ⊢
      rw [List.foldl_append, ihd]
      simp [hmod]
      omega

theorem numNat_digits (n : Nat) (rest : List Char) (hsep : sepOk rest = true) :
    numNat (natDigits n ++ rest) = some (n, rest) := by
  have hhead : ∀ c, rest.head? = some c → c.isDigit = false := by
    intro c hc
    cases rest with
    | nil => cases hc
    | cons d t =>
      cases hc
      simp only [sepOk, Bool.not_eq_true', Bool.or_eq_false_iff] at hsep
      exact hsep.1.1.1
  rw [numNat, digitSpan_digits (natDigits n) rest (natDigits_all_digit n) hhead]
  rw [if_neg (by simpa using natDigits_ne_nil n)]
  cases rest with
  | nil => simp [digitsVal_natDigits]
  | cons c t =>
    simp only [sepOk, Bool.not_eq_true', Bool.or_eq_false_iff, beq_eq_false_iff_ne] at hsep
    obtain ⟨⟨⟨-, h1⟩, h2⟩, h3⟩ := hsep
    simp [digitsVal_natDigits, h1, h2, h3]

theorem isDigit_toNat {c : Char} (h : c.isDigit = true) :
    48 ≤ c.toNat ∧ c.toNat ≤ 57 := by
  unfold Char.isDigit at h
  simp only [ge_iff_le, Bool.and_eq_true, decide_eq_true_eq] at h
  exact ⟨h.1, h.2⟩

theorem natDigits_head (n : Nat) :
    ∃ c t, natDigits n = c :: t ∧ c.isDigit = true := by
  cases h : natDigits n with
  | nil => exact absurd h (natDigits_ne_nil n)
  | cons c t =>
    exact ⟨c, t, rfl, natDigits_all_digit n c (h ▸ List.mem_cons_self c t)⟩

theorem digit_ne_minus {c : Char} (h : c.isDigit = true) : c ≠ '-' := by
  intro he
  have := isDigit_toNat h
  rw [he] at this
  simp at this

theorem numParse_int (n : Int) (rest : List Char) (hsep : sepOk rest = true) :
    numParse (intChars n ++ rest) = some (n, rest) := by
  rw [intChars]
  split_ifs with hneg
  · rw [List.cons_append, numParse]
    rw [if_pos (by rfl)]
    simp only [List.tail_cons]
    rw [numNat_digits n.natAbs rest hsep]
    simp only [Option.map_some']
    have hval : -((n.natAbs : Int)) = n := by omega
    rw [hval]
  · obtain ⟨c, t, hct, hcd⟩ := natDigits_head n.natAbs
    rw [numParse]
    rw [if_neg (by
      rw [hct, List.cons_append]
      simp only [List.head?_cons, Option.some.injEq]
      exact digit_ne_minus hcd)]
    rw [numNat_digits n.natAbs rest hsep]
    simp only [Option.map_some']
    have hval : ((n.natAbs : Int)) = n := by omega
    rw [hval]

/-! ## C6 groundwork: one-step `jparse` reductions -/

theorem strBody_plain :
    ∀ (s rest : List Char), (∀ c ∈ s, (c == '"') = false) →
      strBody (s ++ '"' :: rest) = some (s, rest) := by
  intro s
  induction s with
  | nil => intro rest _; simp [strBody]
  | cons c t ih =>
    intro rest hs
    rw [List.cons_append, strBody, hs c (by simp)]
    simp [ih rest (fun d hd => hs d (by simp [hd]))]

theorem asString_toList (s : String) : s.toList.asString = s := rfl

theorem jparse_str (fuel : Nat) (body rest : List Char)
    (hb : ∀ c ∈ body, (c == '"') = false) :
    jparse (fuel + 1) ('"' :: (body ++ '"' :: rest)) =
      some (.str body.asString, rest) := by
  simp [jparse, jskip, strBody_plain body rest hb]

theorem jparse_num (fuel : Nat) (c : Char) (t : List Char)
    (hd : (c == '-' || c.isDigit) = true)
    (hn : c ≠ 'n') (ht : c ≠ 't') (hf : c ≠ 'f') (hq : c ≠ '"')
    (hbk : c ≠ '[') (hbc : c ≠ '{')
    (hws : (c == ' ' || c == '\t' || c == '\n' || c == '\r') = false) :
    jparse (fuel + 1) (c :: t) =
      (numParse (c :: t)).map (fun p => (PyJson.int p.1, p.2)) := by
  rw [jparse, jskip_cons_not_ws t hws]
  split
  · rename_i heq; rw [List.cons.injEq] at heq; exact absurd heq.1 hn
  · rename_i heq; rw [List.cons.injEq] at heq; exact absurd heq.1 ht
  · rename_i heq; rw [List.cons.injEq] at heq; exact absurd heq.1 hf
  · rename_i heq; rw [List.cons.injEq] at heq; exact absurd heq.1 hq
  · rename_i heq; rw [List.cons.injEq] at heq; exact absurd heq.1 hbk
  · rename_i heq; rw [List.cons.injEq] at heq; exact absurd heq.1 hbc
  · rename_i c2 r2 heq
    rw [List.cons.injEq] at heq
    obtain ⟨rfl, rfl⟩ := heq
    rw [if_pos hd]
  · rename_i heq; cases heq

/-! ## C6 groundwork: value-level reductions -/


theorem digitHead_facts {c : Char} (h : c.isDigit = true) :
    c ≠ 'n' ∧ c ≠ 't' ∧ c ≠ 'f' ∧ c ≠ '"' ∧ c ≠ '[' ∧ c ≠ '{' ∧
      (c == ' ' || c == '\t' || c == '\n' || c == '\r') = false ∧ c ≠ ']' := by
  obtain ⟨h1, h2⟩ := isDigit_toNat h
  have hne : ∀ d : Char, c.toNat ≠ d.toNat → c ≠ d := by
    intro d hd he
    exact hd (by rw [he])
  refine ⟨hne _ (by rw [show ('n' : Char).toNat = 110 from rfl]; omega),
    hne _ (by rw [show ('t' : Char).toNat = 116 from rfl]; omega),
    hne _ (by rw [show ('f' : Char).toNat = 102 from rfl]; omega),
    hne _ (by rw [show ('"' : Char).toNat = 34 from rfl]; omega),
    hne _ (by rw [show ('[' : Char).toNat = 91 from rfl]; omega),
    hne _ (by rw [show ('{' : Char).toNat = 123 from rfl]; omega), ?_,
    hne _ (by rw [show (']' : Char).toNat = 93 from rfl]; omega)⟩
  have hsp : c ≠ ' ' := hne _ (by rw [show (' ' : Char).toNat = 32 from rfl]; omega)
  have htb : c ≠ '\t' := hne _ (by rw [show ('\t' : Char).toNat = 9 from rfl]; omega)
  have hnl : c ≠ '\n' := hne _ (by rw [show ('\n' : Char).toNat = 10 from rfl]; omega)
  have hcr : c ≠ '\r' := hne _ (by rw [show ('\r' : Char).toNat = 13 from rfl]; omega)
  simp [hsp, htb, hnl, hcr]

theorem jparse_int (f : Nat) (n : Int) (rest : List Char) (hsep : sepOk rest = true) :
    jparse (f + 1) (intChars n ++ rest) = some (.int n, rest) := by
  by_cases hneg : n < 0
  · have hic : intChars n = '-' :: natDigits n.natAbs := by rw [intChars, if_pos hneg]
    rw [hic, List.cons_append,
      jparse_num f '-' _ (by decide) (by decide) (by decide) (by decide) (by decide)
        (by decide) (by decide) (by decide)]
    rw [← List.cons_append, ← hic, numParse_int n rest hsep]
    rfl
  · have hic : intChars n = natDigits n.natAbs := by rw [intChars, if_neg hneg]
    obtain ⟨c, t, hct, hcd⟩ := natDigits_head n.natAbs
    obtain ⟨e1, e2, e3, e4, e5, e6, e7, -⟩ := digitHead_facts hcd
    rw [hic, hct, List.cons_append,
      jparse_num f c _ (by simp [hcd]) e1 e2 e3 e4 e5 e6 e7]
    rw [← List.cons_append, ← hct, ← hic, numParse_int n rest hsep]
    rfl

theorem renderV_head (v : PyJson) :
    ∃ c t, renderV v = c :: t ∧
      (c == ' ' || c == '\t' || c == '\n' || c == '\r') = false ∧ c ≠ ']' := by
  cases v with
  | null => exact ⟨'n', _, rfl, by decide, by decide⟩
  | bool b =>
    cases b with
    | false => exact ⟨'f', _, rfl, by decide, by decide⟩
    | true => exact ⟨'t', _, rfl, by decide, by decide⟩
  | int n =>
    by_cases hneg : n < 0
    · refine ⟨'-', natDigits n.natAbs, ?_, by decide, by decide⟩
      rw [show renderV (.int n) = intChars n from rfl, intChars, if_pos hneg]
    · obtain ⟨c, t, hct, hcd⟩ := natDigits_head n.natAbs
      obtain ⟨-, -, -, -, -, -, e7, e8⟩ := digitHead_facts hcd
      refine ⟨c, t, ?_, e7, e8⟩
      rw [show renderV (.int n) = intChars n from rfl, intChars, if_neg hneg, hct]
  | str s => exact ⟨'"', _, rfl, by decide, by decide⟩
  | arr xs => exact ⟨'[', _, rfl, by decide, by decide⟩
  | obj ms => exact ⟨'{', _, rfl, by decide, by decide⟩


/-! ### The parser on canonical renderings: step lemmas, the round trip,
and the extractor pipeline on the three response forms of C6 -/

theorem jparse_arr_step (f : Nat) (r : List Char) :
    jparse (f + 1) ('[' :: r) =
      (match jskip r with
       | ']' :: r2 => some (.arr [], r2)
       | r2 => (jitems f r2).map (fun p => (PyJson.arr p.1, p.2))) := by
  rw [jparse, jskip_cons_not_ws r (by decide)]
  rfl

theorem jparse_obj_step (f : Nat) (r : List Char) :
    jparse (f + 1) ('{' :: r) =
      (match jskip r with
       | '}' :: r2 => some (.obj [], r2)
       | r2 => (jpairs f r2).map (fun p => (PyJson.obj p.1, p.2))) := by
  rw [jparse, jskip_cons_not_ws r (by decide)]
  rfl


theorem plainChar_ne_quote {c : Char} (h : plainChar c = true) : (c == '"') = false := by
  simp only [plainChar, Bool.and_eq_true, Bool.not_eq_true', Bool.or_eq_false_iff] at h
  exact h.1.1.1.1.1.1.1.1

theorem jpairs_str_step (f : Nat) (r : List Char) :
    jpairs (f + 1) ('"' :: r) =
      (strBody r).bind (fun k =>
        match jskip k.2 with
        | ':' :: r2 =>
          (jparse f r2).bind (fun v =>
            match jskip v.2 with
            | ',' :: r4 => (jpairs f r4).map (fun p => ((k.1.asString, v.1) :: p.1, p.2))
            | '}' :: r4 => some ([(k.1.asString, v.1)], r4)
            | _ => none)
        | _ => none) := by
  rw [jpairs, jskip_cons_not_ws _ (by decide)]
  rfl

mutual

theorem rtV : ∀ (v : PyJson) (fuel : Nat) (rest : List Char),
    wfV v = true → (renderV v).length < fuel → sepOk rest = true →
    jparse fuel (renderV v ++ rest) = some (v, rest)
  | .null, fuel, rest, _, hf, _ => by
    cases fuel with
    | zero => exact absurd hf (Nat.not_lt_zero _)
    | succ f => simp [jparse, jskip]
  | .bool true, fuel, rest, _, hf, _ => by
    cases fuel with
    | zero => exact absurd hf (Nat.not_lt_zero _)
    | succ f => simp [jparse, jskip]
  | .bool false, fuel, rest, _, hf, _ => by
    cases fuel with
    | zero => exact absurd hf (Nat.not_lt_zero _)
    | succ f => simp [jparse, jskip]
  | .int n, fuel, rest, _, hf, hsep => by
    cases fuel with
    | zero => exact absurd hf (Nat.not_lt_zero _)
    | succ f => exact jparse_int f n rest hsep
  | .str s, fuel, rest, hwf, hf, _ => by
    cases fuel with
    | zero => exact absurd hf (Nat.not_lt_zero _)
    | succ f =>
      have hb : ∀ c ∈ s.toList, (c == '"') = false := by
        intro c hc
        have hp : plainChar c = true := by
          have := (List.all_eq_true.mp (by simpa [wfV] using hwf)) c hc
          simpa using this
        exact plainChar_ne_quote hp
      rw [show renderV (.str s) ++ rest = '"' :: (s.toList ++ '"' :: rest) by
        simp [renderV]]
      rw [jparse_str f s.toList rest hb, asString_toList]
  | .arr [], fuel, rest, _, hf, _ => by
    cases fuel with
    | zero => exact absurd hf (Nat.not_lt_zero _)
    | succ f =>
      show jparse (f + 1) ('[' :: ']' :: rest) = some (.arr [], rest)
      rw [jparse_arr_step]
      rfl
  | .arr (x :: xs), fuel, rest, hwf, hf, _ => by
    cases fuel with
    | zero => exact absurd hf (Nat.not_lt_zero _)
    | succ f =>
      have hwf' : wfItems (x :: xs) = true := hwf
      obtain ⟨c, t, hct, hws, hbr⟩ := renderV_head x
      have hri : ∃ s, renderItems (x :: xs) = c :: s := by
        cases xs with
        | nil => exact ⟨t, by simp [renderItems, hct]⟩
        | cons y ys => exact ⟨t ++ ',' :: renderItems (y :: ys), by simp [renderItems, hct]⟩
      obtain ⟨s, hs⟩ := hri
      have key := rtItems x xs f rest hwf' (by
        simp only [renderV, List.length_cons, List.length_append,
          List.length_singleton] at hf
        omega)
      rw [show renderV (.arr (x :: xs)) ++ rest
          = '[' :: (renderItems (x :: xs) ++ ']' :: rest) by simp [renderV]]
      rw [jparse_arr_step]
      rw [hs, List.cons_append, jskip_cons_not_ws _ hws]
      split
      · rename_i r2 heq
        rw [List.cons.injEq] at heq
        exact absurd heq.1 hbr
      · rw [← List.cons_append, ← hs, key]
        rfl
  | .obj [], fuel, rest, _, hf, _ => by
    cases fuel with
    | zero => exact absurd hf (Nat.not_lt_zero _)
    | succ f =>
      show jparse (f + 1) ('{' :: '}' :: rest) = some (.obj [], rest)
      rw [jparse_obj_step]
      rfl
  | .obj ((k, v) :: ms), fuel, rest, hwf, hf, _ => by
    cases fuel with
    | zero => exact absurd hf (Nat.not_lt_zero _)
    | succ f =>
      have hwf' : wfPairs ((k, v) :: ms) = true := hwf
      have hrp : ∃ s, renderPairs ((k, v) :: ms) = '"' :: s := by
        cases ms with
        | nil => exact ⟨k.toList ++ '"' :: ':' :: renderV v, by simp [renderPairs]⟩
        | cons m ms' =>
          exact ⟨k.toList ++ '"' :: ':' :: renderV v ++ ',' :: renderPairs (m :: ms'),
            by simp [renderPairs]⟩
      obtain ⟨s, hs⟩ := hrp
      have key := rtPairs (k, v) ms f rest hwf' (by
        simp only [renderV, List.length_cons, List.length_append,
          List.length_singleton] at hf
        omega)
      rw [show renderV (.obj ((k, v) :: ms)) ++ rest
          = '{' :: (renderPairs ((k, v) :: ms) ++ '}' :: rest) by simp [renderV]]
      rw [jparse_obj_step]
      rw [hs, List.cons_append, jskip_cons_not_ws _ (by decide)]
      split
      · rename_i r2 heq
        rw [List.cons.injEq] at heq
        exact absurd heq.1 (by decide)
      · rw [← List.cons_append, ← hs, key]
        rfl
termination_by v _ _ _ _ _ => sizeOf v

theorem rtItems : ∀ (x : PyJson) (xs : List PyJson) (f : Nat) (rest : List Char),
    wfItems (x :: xs) = true → (renderItems (x :: xs)).length + 1 < f →
    jitems f (renderItems (x :: xs) ++ ']' :: rest) = some (x :: xs, rest)
  | x, xs, f, rest, hwf, hf => by
    cases f with
    | zero => omega
    | succ f =>
      have hwx : wfV x = true ∧ wfItems xs = true := by
        simpa [wfItems, Bool.and_eq_true] using hwf
      cases xs with
      | nil =>
        have hlen : (renderV x).length < f := by
          simp only [renderItems, List.length_nil] at hf
          omega
        have h1 := rtV x f (']' :: rest) hwx.1 hlen (by rfl)
        rw [show renderItems [x] ++ ']' :: rest = renderV x ++ ']' :: rest by
          simp [renderItems]]
        rw [jitems, h1]
        rfl
      | cons y ys =>
        have hlenx : (renderV x).length < f := by
          simp only [renderItems, List.length_append, List.length_cons] at hf
          omega
        have hx := rtV x f (',' :: (renderItems (y :: ys) ++ ']' :: rest)) hwx.1 hlenx
          (by rfl)
        have key := rtItems y ys f rest hwx.2 (by
          simp only [renderItems, List.length_append, List.length_cons] at hf ⊢
          omega)
        have step : jitems (f + 1)
            (renderV x ++ (',' :: (renderItems (y :: ys) ++ ']' :: rest)))
            = (jitems f (renderItems (y :: ys) ++ ']' :: rest)).map
                (fun p => (x :: p.1, p.2)) := by
          rw [jitems, hx]
          rfl
        rw [show renderItems (x :: y :: ys) ++ ']' :: rest
            = renderV x ++ (',' :: (renderItems (y :: ys) ++ ']' :: rest)) by
          simp [renderItems]]
        rw [step, key]
        rfl
termination_by x xs _ _ _ _ => 1 + sizeOf x + sizeOf xs

theorem rtPairs : ∀ (kv : String × PyJson) (ms : List (String × PyJson)) (f : Nat)
    (rest : List Char),
    wfPairs (kv :: ms) = true → (renderPairs (kv :: ms)).length + 1 < f →
    jpairs f (renderPairs (kv :: ms) ++ '}' :: rest) = some (kv :: ms, rest)
  | (k, v), ms, f, rest, hwf, hf => by
    cases f with
    | zero => omega
    | succ f =>
      have hwx : (k.toList.all plainChar = true ∧ wfV v = true) ∧ wfPairs ms = true := by
        simpa [wfPairs, Bool.and_eq_true, and_assoc] using hwf
      have hkq : ∀ c ∈ k.toList, (c == '"') = false := fun c hc =>
        plainChar_ne_quote (List.all_eq_true.mp hwx.1.1 c hc)
      cases ms with
      | nil =>
        have hlenv : (renderV v).length < f := by
          simp only [renderPairs, List.length_append, List.length_cons] at hf
          omega
        have hv := rtV v f ('}' :: rest) hwx.1.2 hlenv (by rfl)
        have step1 : jpairs (f + 1)
            ('"' :: (k.toList ++ '"' :: ':' :: (renderV v ++ '}' :: rest)))
            = (jparse f (renderV v ++ '}' :: rest)).bind (fun w =>
                match jskip w.2 with
                | ',' :: r4 => (jpairs f r4).map
                    (fun p => ((k.toList.asString, w.1) :: p.1, p.2))
                | '}' :: r4 => some ([(k.toList.asString, w.1)], r4)
                | _ => none) := by
          rw [jpairs_str_step, strBody_plain k.toList _ hkq]
          rfl
        rw [show renderPairs [(k, v)] ++ '}' :: rest
            = '"' :: (k.toList ++ '"' :: ':' :: (renderV v ++ '}' :: rest)) by
          simp [renderPairs]]
        rw [step1, hv]
        show some ([(k.toList.asString, v)], rest) = some ([(k, v)], rest)
        rw [asString_toList]
      | cons m ms' =>
        have hlenv : (renderV v).length < f := by
          simp only [renderPairs, List.length_append, List.length_cons] at hf
          omega
        have hv := rtV v f (',' :: (renderPairs (m :: ms') ++ '}' :: rest)) hwx.1.2 hlenv
          (by rfl)
        have key := rtPairs m ms' f rest hwx.2 (by
          simp only [renderPairs, List.length_append, List.length_cons] at hf ⊢
          omega)
        have step1 : jpairs (f + 1)
            ('"' :: (k.toList ++ '"' :: ':' ::
              (renderV v ++ ',' :: (renderPairs (m :: ms') ++ '}' :: rest))))
            = (jparse f (renderV v ++ ',' :: (renderPairs (m :: ms') ++ '}' :: rest))).bind
                (fun w =>
                  match jskip w.2 with
                  | ',' :: r4 => (jpairs f r4).map
                      (fun p => ((k.toList.asString, w.1) :: p.1, p.2))
                  | '}' :: r4 => some ([(k.toList.asString, w.1)], r4)
                  | _ => none) := by
          rw [jpairs_str_step, strBody_plain k.toList _ hkq]
          rfl
        rw [show renderPairs ((k, v) :: m :: ms') ++ '}' :: rest
            = '"' :: (k.toList ++ '"' :: ':' ::
              (renderV v ++ ',' :: (renderPairs (m :: ms') ++ '}' :: rest))) by
          simp [renderPairs]]
        rw [step1, hv]
        show (jpairs f (renderPairs (m :: ms') ++ '}' :: rest)).map
            (fun p => ((k.toList.asString, v) :: p.1, p.2)) = some ((k, v) :: m :: ms', rest)
        rw [key, asString_toList]
        rfl
termination_by kv ms _ _ _ _ => 1 + sizeOf kv + sizeOf ms

end

theorem toNat_ofNat_valid (n : Nat) (h : n.isValidChar) : (Char.ofNat n).toNat = n := by
  simp [Char.ofNat, Char.toNat, Char.ofNatAux, h]
  rfl

theorem toLower_ne_backtick (c : Char) (h : ¬ c = '`') :
    ('`'.toLower == c.toLower) = false := by
  have h0 : '`'.toLower = '`' := by decide
  rw [h0, beq_eq_false_iff_ne]
  intro heq
  simp only [Char.toLower] at heq
  split at heq
  · rename_i hr
    have h96 : (Char.ofNat (c.toNat + 32)).toNat = 96 := by rw [← heq]; decide
    rw [toNat_ofNat_valid _ (Or.inl (by omega))] at h96
    omega
  · exact h heq.symm

theorem startsWithCI_backtick_head {c : Char} (h : ¬ c = '`') (needle rest : List Char) :
    startsWithCI ('`' :: needle) (c :: rest) = false := by
  rw [startsWithCI, toLower_ne_backtick c h, Bool.false_and]

theorem findCI_backtick_free (needle : List Char) :
    ∀ text : List Char, (∀ c ∈ text, ¬ c = '`') →
      findCI ('`' :: needle) text = none
  | [], _ => by simp [findCI]
  | c :: rest, h => by
    rw [findCI, startsWithCI_backtick_head (h c (List.mem_cons_self c rest)) needle rest]
    rw [findCI_backtick_free needle rest (fun x hx => h x (List.mem_cons_of_mem c hx))]
    rfl

theorem fenceSearch_backtick_free (text : List Char) (h : ∀ c ∈ text, ¬ c = '`') :
    fenceSearch text = none := by
  rw [fenceSearch,
    show ("```json".toList) = '`' :: "``json".toList from rfl,
    findCI_backtick_free _ text h]

theorem startsWithCI_self_append : ∀ (p rest : List Char),
    startsWithCI p (p ++ rest) = true
  | [], _ => rfl
  | c :: p, rest => by
    rw [List.cons_append]
    simp [startsWithCI, startsWithCI_self_append p rest]

theorem findCI_self (c : Char) (p tail : List Char) :
    findCI (c :: p) ((c :: p) ++ tail) = some 0 := by
  rw [List.cons_append, findCI, ← List.cons_append, startsWithCI_self_append (c :: p) tail]
  rfl

theorem findCI_after_free : ∀ (l : List Char), (∀ c ∈ l, ¬ c = '`') →
    ∀ (p tail : List Char),
    findCI ('`' :: p) (l ++ '`' :: (p ++ tail)) = some l.length
  | [], _, p, tail => by
    rw [List.nil_append]
    simpa using findCI_self '`' p tail
  | c :: l, h, p, tail => by
    rw [List.cons_append, findCI,
      startsWithCI_backtick_head (h c (List.mem_cons_self c l)) p _,
      findCI_after_free l (fun x hx => h x (List.mem_cons_of_mem c hx)) p tail]
    rfl

theorem fenceSearch_wrap (body : List Char) (h : ∀ c ∈ body, ¬ c = '`') :
    fenceSearch (fenceWrap body) = some ('\n' :: body ++ ['\n']) := by
  have h1 : findCI ("```json".toList) (fenceWrap body) = some 0 := by
    rw [show ("```json".toList) = '`' :: "``json".toList from rfl,
        show fenceWrap body
          = ('`' :: "``json".toList) ++ ('\n' :: body ++ '\n' :: "```".toList) from rfl]
    exact findCI_self _ _ _
  have h2 : (fenceWrap body).drop (0 + 7) = '\n' :: body ++ '\n' :: "```".toList := by
    rw [show fenceWrap body
          = "```json".toList ++ ('\n' :: body ++ '\n' :: "```".toList) from rfl]
    exact List.drop_left' (by decide)
  have h3 : findCI ("```".toList) ('\n' :: body ++ '\n' :: "```".toList)
      = some ('\n' :: body ++ ['\n']).length := by
    rw [show ('\n' :: body ++ '\n' :: "```".toList)
          = ('\n' :: body ++ ['\n']) ++ '`' :: ("``".toList ++ []) from by simp,
        show ("```".toList) = '`' :: "``".toList from rfl]
    refine findCI_after_free _ ?_ _ _
    intro c hc
    rcases List.mem_cons.mp hc with rfl | hc2
    · decide
    rcases List.mem_append.mp hc2 with hc3 | hc4
    · exact h c hc3
    · simp at hc4
      subst hc4
      decide
  rw [fenceSearch, h1]
  show (match findCI ("```".toList) (List.drop (0 + 7) (fenceWrap body)) with
    | none => none
    | some j => some (List.take j (List.drop (0 + 7) (fenceWrap body))))
      = some ('\n' :: body ++ ['\n'])
  rw [h2, h3]
  show some (('\n' :: body ++ '\n' :: "```".toList).take ('\n' :: body ++ ['\n']).length)
      = some ('\n' :: body ++ ['\n'])
  rw [show ('\n' :: body ++ '\n' :: "```".toList)
      = ('\n' :: body ++ ['\n']) ++ "```".toList from by simp]
  rw [List.take_left]

theorem pyStripL_wrap (a b : Char) (mid : List Char)
    (ha : isPyWs a = false) (hb : isPyWs b = false) :
    pyStripL ('\n' :: (a :: mid ++ [b]) ++ ['\n']) = a :: mid ++ [b] := by
  rw [pyStripL]
  rw [show ('\n' :: (a :: mid ++ [b]) ++ ['\n'] : List Char)
      = '\n' :: a :: (mid ++ [b] ++ ['\n']) from by simp]
  have d1 : List.dropWhile isPyWs ('\n' :: a :: (mid ++ [b] ++ ['\n']))
      = a :: (mid ++ [b] ++ ['\n']) := by
    rw [List.dropWhile_cons, if_pos (by decide), List.dropWhile_cons, if_neg (by simp [ha])]
  have d2 : (a :: (mid ++ [b] ++ ['\n'])).reverse = '\n' :: b :: (mid.reverse ++ [a]) := by
    simp
  have d3 : List.dropWhile isPyWs ('\n' :: b :: (mid.reverse ++ [a]))
      = b :: (mid.reverse ++ [a]) := by
    rw [List.dropWhile_cons, if_pos (by decide), List.dropWhile_cons, if_neg (by simp [hb])]
  rw [d1, d2, d3]
  simp

theorem toList_asString (l : List Char) : l.asString.toList = l := rfl

theorem asString_cons_ne_empty (c : Char) (t : List Char) : ¬ ((c :: t).asString = "") := by
  intro h
  have h2 : (c :: t : List Char) = [] := congrArg String.toList h
  exact absurd h2 (by simp)

theorem beq_false_of_toNat_ne {c d : Char} (h : ¬ c.toNat = d.toNat) : (c == d) = false := by
  rw [beq_eq_false_iff_ne]
  intro he
  exact h (by rw [he])

theorem digit_no_brace {c : Char} (h : c.isDigit = true) :
    (c == '{') = false ∧ (c == '}') = false := by
  have hb := isDigit_toNat h
  refine ⟨beq_false_of_toNat_ne ?_, beq_false_of_toNat_ne ?_⟩
  · rw [show ('{').toNat = 123 from rfl]
    omega
  · rw [show ('}').toNat = 125 from rfl]
    omega

theorem plainChar_no_brace {c : Char} (h : plainChar c = true) :
    (c == '{') = false ∧ (c == '}') = false := by
  simp only [plainChar, Bool.and_eq_true, Bool.not_eq_true', Bool.or_eq_false_iff] at h
  exact ⟨h.1.1.1.1.1.1.2, h.1.1.1.1.1.2⟩

theorem braceSpan_open (t : List Char) (d : Nat) (acc : List Char) :
    braceSpan ('{' :: t) d acc = braceSpan t (d + 1) ('{' :: acc) := by
  rw [braceSpan, if_pos (show ('{' == '{') = true from rfl)]

theorem braceSpan_close (t : List Char) (d : Nat) (acc : List Char) (hd : ¬ d = 1) :
    braceSpan ('}' :: t) d acc = braceSpan t (d - 1) ('}' :: acc) := by
  rw [braceSpan, if_neg (show ¬ ('}' == '{') = true by decide),
    if_pos (show ('}' == '}') = true from rfl), if_neg hd]

theorem braceSpan_close_one (t : List Char) (acc : List Char) :
    braceSpan ('}' :: t) 1 acc = some ('}' :: acc).reverse := by
  rw [braceSpan, if_neg (show ¬ ('}' == '{') = true by decide),
    if_pos (show ('}' == '}') = true from rfl), if_pos rfl]

theorem braceSpan_other {c : Char} (h1 : (c == '{') = false) (h2 : (c == '}') = false)
    (t : List Char) (d : Nat) (acc : List Char) :
    braceSpan (c :: t) d acc = braceSpan t d (c :: acc) := by
  rw [braceSpan, if_neg (by simp [h1]), if_neg (by simp [h2])]

theorem braceSpan_no_brace : ∀ (l : List Char),
    (∀ c ∈ l, (c == '{') = false ∧ (c == '}') = false) →
    ∀ (t : List Char) (d : Nat) (acc : List Char),
    braceSpan (l ++ t) d acc = braceSpan t d (l.reverse ++ acc)
  | [], _, t, d, acc => by simp
  | c :: l, h, t, d, acc => by
    have hc := h c (List.mem_cons_self c l)
    rw [List.cons_append, braceSpan_other hc.1 hc.2,
      braceSpan_no_brace l (fun x hx => h x (List.mem_cons_of_mem c hx)) t d (c :: acc)]
    simp

theorem firstBraceSpan_skip : ∀ (pre : List Char),
    (∀ c ∈ pre, (c == '{') = false) → ∀ (rest : List Char),
    firstBraceSpan (pre ++ rest) = firstBraceSpan rest
  | [], _, rest => by rw [List.nil_append]
  | c :: pre, h, rest => by
    rw [List.cons_append, firstBraceSpan,
      if_neg (by simp [h c (List.mem_cons_self c pre)])]
    exact firstBraceSpan_skip pre (fun x hx => h x (List.mem_cons_of_mem c hx)) rest

theorem map_no_brace_of (φ : Char → Char)
    (hnb : ∀ c, (c == '{') = false → (c == '}') = false →
      (φ c == '{') = false ∧ (φ c == '}') = false) (l : List Char)
    (h : ∀ c ∈ l, (c == '{') = false ∧ (c == '}') = false) :
    ∀ c ∈ l.map φ, (c == '{') = false ∧ (c == '}') = false := by
  intro c hc
  rcases List.mem_map.mp hc with ⟨x, hx, rfl⟩
  exact hnb x (h x hx).1 (h x hx).2

theorem intChars_no_brace (n : Int) :
    ∀ c ∈ intChars n, (c == '{') = false ∧ (c == '}') = false := by
  intro c hc
  simp only [intChars] at hc
  by_cases hn : n < 0
  · rw [if_pos hn] at hc
    rcases List.mem_cons.mp hc with rfl | hc2
    · exact ⟨by decide, by decide⟩
    · exact digit_no_brace (natDigits_all_digit _ c hc2)
  · rw [if_neg hn] at hc
    exact digit_no_brace (natDigits_all_digit _ c hc)

theorem str_render_no_brace (s : String) (hs : s.toList.all plainChar = true) :
    ∀ c ∈ ('"' :: s.toList ++ ['"'] : List Char),
      (c == '{') = false ∧ (c == '}') = false := by
  intro c hc
  rcases List.mem_cons.mp hc with rfl | hc2
  · exact ⟨by decide, by decide⟩
  rcases List.mem_append.mp hc2 with hc3 | hc4
  · exact plainChar_no_brace (List.all_eq_true.mp hs c hc3)
  · simp at hc4
    subst hc4
    exact ⟨by decide, by decide⟩

theorem key_part_no_brace (k : String) (hk : k.toList.all plainChar = true) :
    ∀ c ∈ ('"' :: k.toList ++ ['"', ':'] : List Char),
      (c == '{') = false ∧ (c == '}') = false := by
  intro c hc
  rcases List.mem_cons.mp hc with rfl | hc2
  · exact ⟨by decide, by decide⟩
  rcases List.mem_append.mp hc2 with hc3 | hc4
  · exact plainChar_no_brace (List.all_eq_true.mp hk c hc3)
  · fin_cases hc4 <;> exact ⟨by decide, by decide⟩

mutual

theorem absorbV (φ : Char → Char) (hop : φ '{' = '{') (hcl : φ '}' = '}')
    (hnb : ∀ c, (c == '{') = false → (c == '}') = false →
      (φ c == '{') = false ∧ (φ c == '}') = false) :
    ∀ (v : PyJson), wfV v = true → ∀ (t : List Char) (d : Nat) (acc : List Char), 1 ≤ d →
    braceSpan ((renderV v).map φ ++ t) d acc
      = braceSpan t d (((renderV v).map φ).reverse ++ acc)
  | .null, _, t, d, acc, _ =>
    braceSpan_no_brace _ (map_no_brace_of φ hnb _ (by decide)) t d acc
  | .bool true, _, t, d, acc, _ =>
    braceSpan_no_brace _ (map_no_brace_of φ hnb _ (by decide)) t d acc
  | .bool false, _, t, d, acc, _ =>
    braceSpan_no_brace _ (map_no_brace_of φ hnb _ (by decide)) t d acc
  | .int n, _, t, d, acc, _ =>
    braceSpan_no_brace _ (map_no_brace_of φ hnb _ (intChars_no_brace n)) t d acc
  | .str s, hwf, t, d, acc, _ =>
    braceSpan_no_brace _
      (map_no_brace_of φ hnb _ (str_render_no_brace s (by simpa [wfV] using hwf))) t d acc
  | .arr xs, hwf, t, d, acc, hd => by
    have h1 : ((renderV (.arr xs)).map φ) = φ '[' :: ((renderItems xs).map φ ++ [φ ']']) := by
      simp [renderV]
    have hob := hnb '[' (by decide) (by decide)
    have hcb := hnb ']' (by decide) (by decide)
    rw [h1, List.cons_append, braceSpan_other hob.1 hob.2, List.append_assoc]
    rw [absorbItems φ hop hcl hnb xs hwf ([φ ']'] ++ t) d (φ '[' :: acc) hd]
    rw [show ([φ ']'] ++ t : List Char) = φ ']' :: t from rfl]
    rw [braceSpan_other hcb.1 hcb.2]
    simp
  | .obj ms, hwf, t, d, acc, hd => by
    have h1 : ((renderV (.obj ms)).map φ) = '{' :: ((renderPairs ms).map φ ++ ['}']) := by
      simp [renderV, hop, hcl]
    rw [h1, List.cons_append, braceSpan_open, List.append_assoc]
    rw [absorbPairs φ hop hcl hnb ms hwf (['}'] ++ t) (d + 1) ('{' :: acc) (by omega)]
    rw [show (['}'] ++ t : List Char) = '}' :: t from rfl]
    rw [braceSpan_close t (d + 1) _ (by omega)]
    rw [show d + 1 - 1 = d from by omega]
    simp
termination_by v _ _ _ _ _ => sizeOf v

theorem absorbItems (φ : Char → Char) (hop : φ '{' = '{') (hcl : φ '}' = '}')
    (hnb : ∀ c, (c == '{') = false → (c == '}') = false →
      (φ c == '{') = false ∧ (φ c == '}') = false) :
    ∀ (xs : List PyJson), wfItems xs = true →
    ∀ (t : List Char) (d : Nat) (acc : List Char), 1 ≤ d →
    braceSpan ((renderItems xs).map φ ++ t) d acc
      = braceSpan t d (((renderItems xs).map φ).reverse ++ acc)
  | [], _, t, d, acc, _ => by simp [renderItems]
  | [x], hwf, t, d, acc, hd => by
    have hx : wfV x = true := by simpa [wfItems] using hwf
    rw [show renderItems [x] = renderV x from rfl]
    exact absorbV φ hop hcl hnb x hx t d acc hd
  | x :: y :: ys, hwf, t, d, acc, hd => by
    have hw : wfV x = true ∧ wfItems (y :: ys) = true := by
      simpa [wfItems, Bool.and_eq_true] using hwf
    have hcm := hnb ',' (by decide) (by decide)
    rw [show renderItems (x :: y :: ys) = renderV x ++ ',' :: renderItems (y :: ys) from rfl]
    rw [List.map_append, List.append_assoc]
    rw [absorbV φ hop hcl hnb x hw.1 _ d acc hd]
    rw [show ((',' :: renderItems (y :: ys)).map φ ++ t : List Char)
        = φ ',' :: ((renderItems (y :: ys)).map φ ++ t) from by simp]
    rw [braceSpan_other hcm.1 hcm.2]
    rw [absorbItems φ hop hcl hnb (y :: ys) hw.2 t d _ hd]
    simp
termination_by xs _ _ _ _ _ => sizeOf xs

theorem absorbPairs (φ : Char → Char) (hop : φ '{' = '{') (hcl : φ '}' = '}')
    (hnb : ∀ c, (c == '{') = false → (c == '}') = false →
      (φ c == '{') = false ∧ (φ c == '}') = false) :
    ∀ (ms : List (String × PyJson)), wfPairs ms = true →
    ∀ (t : List Char) (d : Nat) (acc : List Char), 1 ≤ d →
    braceSpan ((renderPairs ms).map φ ++ t) d acc
      = braceSpan t d (((renderPairs ms).map φ).reverse ++ acc)
  | [], _, t, d, acc, _ => by simp [renderPairs]
  | [(k, v)], hwf, t, d, acc, hd => by
    have hw : k.toList.all plainChar = true ∧ wfV v = true := by
      simpa [wfPairs, Bool.and_eq_true] using hwf
    rw [show renderPairs [(k, v)]
        = ('"' :: k.toList ++ ['"', ':']) ++ renderV v from by simp [renderPairs]]
    rw [List.map_append, List.append_assoc]
    rw [braceSpan_no_brace _ (map_no_brace_of φ hnb _ (key_part_no_brace k hw.1)) _ d acc]
    rw [absorbV φ hop hcl hnb v hw.2 t d _ hd]
    simp
  | (k, v) :: m :: ms, hwf, t, d, acc, hd => by
    have hw : k.toList.all plainChar = true ∧ wfV v = true ∧ wfPairs (m :: ms) = true := by
      simpa [wfPairs, Bool.and_eq_true, and_assoc] using hwf
    have hcm := hnb ',' (by decide) (by decide)
    rw [show renderPairs ((k, v) :: m :: ms)
        = (('"' :: k.toList ++ ['"', ':']) ++ renderV v) ++ ',' :: renderPairs (m :: ms) from by
      simp [renderPairs]]
    rw [List.map_append, List.map_append, List.append_assoc, List.append_assoc]
    rw [braceSpan_no_brace _ (map_no_brace_of φ hnb _ (key_part_no_brace k hw.1)) _ d acc]
    rw [absorbV φ hop hcl hnb v hw.2.1 _ d _ hd]
    rw [show ((',' :: renderPairs (m :: ms)).map φ ++ t : List Char)
        = φ ',' :: ((renderPairs (m :: ms)).map φ ++ t) from by simp]
    rw [braceSpan_other hcm.1 hcm.2]
    rw [absorbPairs φ hop hcl hnb (m :: ms) hw.2.2 t d _ hd]
    simp
termination_by ms _ _ _ _ _ => sizeOf ms

end

theorem jsonLoadsL_render (v : PyJson) (hwf : wfV v = true) :
    jsonLoadsL (renderV v) = some v := by
  have h1 := rtV v ((renderV v).length + 1) [] hwf (by omega) rfl
  rw [List.append_nil] at h1
  rw [jsonLoadsL, h1]
  rfl

theorem jpairs_smart_head (f : Nat) (l : List Char) : jpairs f ('“' :: l) = none := by
  cases f with
  | zero => rfl
  | succ f =>
    rw [jpairs, jskip_cons_not_ws _ (by decide)]
    rfl

theorem renderPairs_cons_head (k : String) (v : PyJson) (ms : List (String × PyJson)) :
    ∃ s, renderPairs ((k, v) :: ms) = '"' :: s := by
  cases ms with
  | nil => exact ⟨k.toList ++ '"' :: ':' :: renderV v, by simp [renderPairs]⟩
  | cons m ms' =>
    exact ⟨k.toList ++ '"' :: ':' :: renderV v ++ ',' :: renderPairs (m :: ms'),
      by simp [renderPairs]⟩

theorem jsonLoadsL_smart_obj_cons (k : String) (v : PyJson) (ms : List (String × PyJson)) :
    jsonLoadsL (smartQuoted (renderV (.obj ((k, v) :: ms)))) = none := by
  obtain ⟨s, hs⟩ := renderPairs_cons_head k v ms
  have h1 : smartQuoted (renderV (.obj ((k, v) :: ms)))
      = '{' :: '“' :: smartQuoted (s ++ ['}']) := by
    rw [show renderV (.obj ((k, v) :: ms))
        = '{' :: (renderPairs ((k, v) :: ms) ++ ['}']) from by simp [renderV], hs]
    simp [smartQuoted]
  have h2 : jparse (('{' :: '“' :: smartQuoted (s ++ ['}'])).length + 1)
      ('{' :: '“' :: smartQuoted (s ++ ['}'])) = none := by
    rw [show ('{' :: '“' :: smartQuoted (s ++ ['}'])).length + 1
        = ((smartQuoted (s ++ ['}'])).length + 2) + 1 from by simp]
    rw [jparse_obj_step, jskip_cons_not_ws _ (by decide)]
    show (jpairs ((smartQuoted (s ++ ['}'])).length + 2)
        ('“' :: smartQuoted (s ++ ['}']))).map (fun p => (PyJson.obj p.1, p.2)) = none
    rw [jpairs_smart_head]
    rfl
  rw [h1, jsonLoadsL, h2]

theorem digit_tame {c : Char} (h : c.isDigit = true) : tameChar c = true := by
  have hb := isDigit_toNat h
  simp only [tameChar, Bool.not_eq_true', Bool.or_eq_false_iff]
  refine ⟨⟨⟨beq_false_of_toNat_ne ?_, beq_false_of_toNat_ne ?_⟩,
    beq_false_of_toNat_ne ?_⟩, beq_false_of_toNat_ne ?_⟩
  · rw [show ('“').toNat = 8220 from rfl]
    omega
  · rw [show ('”').toNat = 8221 from rfl]
    omega
  · rw [show ('’').toNat = 8217 from rfl]
    omega
  · rw [show ('`').toNat = 96 from rfl]
    omega

theorem plain_tame {c : Char} (h : plainChar c = true) : tameChar c = true := by
  simp only [plainChar, Bool.and_eq_true, Bool.not_eq_true', Bool.or_eq_false_iff] at h
  simp only [tameChar, Bool.not_eq_true', Bool.or_eq_false_iff]
  exact ⟨⟨⟨h.1.1.1.2, h.1.1.2⟩, h.1.2⟩, h.1.1.1.1.2⟩

theorem intChars_tame (n : Int) : ∀ c ∈ intChars n, tameChar c = true := by
  intro c hc
  simp only [intChars] at hc
  by_cases hn : n < 0
  · rw [if_pos hn] at hc
    rcases List.mem_cons.mp hc with rfl | hc2
    · decide
    · exact digit_tame (natDigits_all_digit _ c hc2)
  · rw [if_neg hn] at hc
    exact digit_tame (natDigits_all_digit _ c hc)

mutual

theorem tameV : ∀ (v : PyJson), wfV v = true → ∀ c ∈ renderV v, tameChar c = true
  | .null, _, c, hc => by
    have hx : c ∈ (['n', 'u', 'l', 'l'] : List Char) := hc
    fin_cases hx <;> decide
  | .bool true, _, c, hc => by
    have hx : c ∈ (['t', 'r', 'u', 'e'] : List Char) := hc
    fin_cases hx <;> decide
  | .bool false, _, c, hc => by
    have hx : c ∈ (['f', 'a', 'l', 's', 'e'] : List Char) := hc
    fin_cases hx <;> decide
  | .int n, _, c, hc => intChars_tame n c hc
  | .str s, hwf, c, hc => by
    have hx : c ∈ ('"' :: s.toList ++ ['"'] : List Char) := hc
    rcases List.mem_cons.mp hx with rfl | hc2
    · decide
    rcases List.mem_append.mp hc2 with hc3 | hc4
    · exact plain_tame (List.all_eq_true.mp (by simpa [wfV] using hwf) c hc3)
    · simp at hc4
      subst hc4
      decide
  | .arr xs, hwf, c, hc => by
    have hx : c ∈ ('[' :: renderItems xs ++ [']'] : List Char) := hc
    rcases List.mem_cons.mp hx with rfl | hc2
    · decide
    rcases List.mem_append.mp hc2 with hc3 | hc4
    · exact tameItems xs hwf c hc3
    · simp at hc4
      subst hc4
      decide
  | .obj ms, hwf, c, hc => by
    have hx : c ∈ ('{' :: renderPairs ms ++ ['}'] : List Char) := hc
    rcases List.mem_cons.mp hx with rfl | hc2
    · decide
    rcases List.mem_append.mp hc2 with hc3 | hc4
    · exact tamePairs ms hwf c hc3
    · simp at hc4
      subst hc4
      decide
termination_by v _ _ _ => sizeOf v

theorem tameItems : ∀ (xs : List PyJson), wfItems xs = true →
    ∀ c ∈ renderItems xs, tameChar c = true
  | [], _, c, hc => absurd hc (by simp [renderItems])
  | [x], hwf, c, hc => tameV x (by simpa [wfItems] using hwf) c hc
  | x :: y :: ys, hwf, c, hc => by
    have hw : wfV x = true ∧ wfItems (y :: ys) = true := by
      simpa [wfItems, Bool.and_eq_true] using hwf
    have hx : c ∈ renderV x ++ ',' :: renderItems (y :: ys) := hc
    rcases List.mem_append.mp hx with hc2 | hc3
    · exact tameV x hw.1 c hc2
    rcases List.mem_cons.mp hc3 with rfl | hc4
    · decide
    · exact tameItems (y :: ys) hw.2 c hc4
termination_by xs _ _ _ => sizeOf xs

theorem tamePairs : ∀ (ms : List (String × PyJson)), wfPairs ms = true →
    ∀ c ∈ renderPairs ms, tameChar c = true
  | [], _, c, hc => absurd hc (by simp [renderPairs])
  | [(k, v)], hwf, c, hc => by
    have hw : k.toList.all plainChar = true ∧ wfV v = true := by
      simpa [wfPairs, Bool.and_eq_true] using hwf
    have hx : c ∈ ('"' :: k.toList ++ '"' :: ':' :: renderV v : List Char) := hc
    rcases List.mem_cons.mp hx with rfl | hc2
    · decide
    rcases List.mem_append.mp hc2 with hc3 | hc4
    · exact plain_tame (List.all_eq_true.mp hw.1 c hc3)
    rcases List.mem_cons.mp hc4 with rfl | hc5
    · decide
    rcases List.mem_cons.mp hc5 with rfl | hc6
    · decide
    · exact tameV v hw.2 c hc6
  | (k, v) :: m :: ms, hwf, c, hc => by
    have hw : k.toList.all plainChar = true ∧ wfV v = true ∧ wfPairs (m :: ms) = true := by
      simpa [wfPairs, Bool.and_eq_true, and_assoc] using hwf
    have hx : c ∈ ('"' :: k.toList ++ '"' :: ':' :: renderV v ++ ',' :: renderPairs (m :: ms)
        : List Char) := hc
    rcases List.mem_cons.mp hx with rfl | hc2
    · decide
    rcases List.mem_append.mp hc2 with hcL | hcR
    · rcases List.mem_append.mp hcL with hc3 | hc4
      · exact plain_tame (List.all_eq_true.mp hw.1 c hc3)
      rcases List.mem_cons.mp hc4 with rfl | hc5
      · decide
      rcases List.mem_cons.mp hc5 with rfl | hc6
      · decide
      · exact tameV v hw.2.1 c hc6
    · rcases List.mem_cons.mp hcR with rfl | hc9
      · decide
      · exact tamePairs (m :: ms) hw.2.2 c hc9
termination_by ms _ _ _ => sizeOf ms

end

theorem tame_ne_backtick {c : Char} (h : tameChar c = true) : ¬ c = '`' := by
  simp only [tameChar, Bool.not_eq_true', Bool.or_eq_false_iff] at h
  intro he
  subst he
  simp at h

theorem cleanup_smart : ∀ (l : List Char), (∀ c ∈ l, tameChar c = true) →
    cleanupChars (smartQuoted l) = l
  | [], _ => rfl
  | c :: l, h => by
    have hc := h c (List.mem_cons_self c l)
    have ih := cleanup_smart l (fun x hx => h x (List.mem_cons_of_mem c hx))
    have htame : (c == '“') = false ∧ (c == '”') = false ∧ (c == '’') = false ∧
        (c == '`') = false := by
      simp only [tameChar, Bool.not_eq_true', Bool.or_eq_false_iff] at hc
      exact ⟨hc.1.1.1, hc.1.1.2, hc.1.2, hc.2⟩
    by_cases hq : c = '"'
    · subst hq
      rw [show smartQuoted ('"' :: l) = '“' :: smartQuoted l from by simp [smartQuoted]]
      rw [show cleanupChars ('“' :: smartQuoted l) = '"' :: cleanupChars (smartQuoted l)
        from by simp [cleanupChars, smartSub]]
      rw [ih]
    · have hbt : ¬ c = '`' := by
        have h4 := htame.2.2.2
        simpa [beq_eq_false_iff_ne] using h4
      rw [show smartQuoted (c :: l) = c :: smartQuoted l from by simp [smartQuoted, hq]]
      rw [show cleanupChars (c :: smartQuoted l) = c :: cleanupChars (smartQuoted l)
        from by simp [cleanupChars, smartSub, htame.1, htame.2.1, htame.2.2.1, hbt]]
      rw [ih]

theorem firstBraceSpan_map_obj (φ : Char → Char) (hop : φ '{' = '{') (hcl : φ '}' = '}')
    (hnb : ∀ c, (c == '{') = false → (c == '}') = false →
      (φ c == '{') = false ∧ (φ c == '}') = false)
    (ms : List (String × PyJson)) (hwf : wfPairs ms = true) (suf : List Char) :
    firstBraceSpan ((renderV (.obj ms)).map φ ++ suf) = some ((renderV (.obj ms)).map φ) := by
  have h1 : ((renderV (.obj ms)).map φ) = '{' :: ((renderPairs ms).map φ ++ ['}']) := by
    simp [renderV, hop, hcl]
  rw [h1, List.cons_append, firstBraceSpan, if_pos (show ('{' == '{') = true from rfl)]
  rw [braceSpan_open, List.append_assoc]
  rw [absorbPairs φ hop hcl hnb ms hwf (['}'] ++ suf) 1 ['{'] (by omega)]
  rw [show (['}'] ++ suf : List Char) = '}' :: suf from rfl]
  rw [braceSpan_close_one]
  simp

theorem extract_via_fence (l g : List Char) (hne : ¬ (l.asString = ""))
    (hf : fenceSearch l = some g) (hg : ¬ (pyStripL g = [])) :
    extract_json_from_response_text l.asString
      = (match jsonLoadsL (pyStripL g) with
         | some v => some v
         | none => jsonLoadsL (cleanupChars (pyStripL g))) := by
  rw [extract_json_from_response_text, if_neg hne]
  show (match (match fenceSearch l with
        | some g => some (pyStripL g)
        | none => firstBraceSpan l) with
       | none => none
       | some c => if c = [] then none else
           match jsonLoadsL c with
           | some v => some v
           | none => jsonLoadsL (cleanupChars c)) = _
  rw [hf]
  show (if pyStripL g = [] then none else
      match jsonLoadsL (pyStripL g) with
      | some v => some v
      | none => jsonLoadsL (cleanupChars (pyStripL g))) = _
  rw [if_neg hg]

theorem extract_via_span (l c0 : List Char) (hne : ¬ (l.asString = ""))
    (hf : fenceSearch l = none) (hb : firstBraceSpan l = some c0) (hg : ¬ (c0 = [])) :
    extract_json_from_response_text l.asString
      = (match jsonLoadsL c0 with
         | some v => some v
         | none => jsonLoadsL (cleanupChars c0)) := by
  rw [extract_json_from_response_text, if_neg hne]
  show (match (match fenceSearch l with
        | some g => some (pyStripL g)
        | none => firstBraceSpan l) with
       | none => none
       | some c => if c = [] then none else
           match jsonLoadsL c with
           | some v => some v
           | none => jsonLoadsL (cleanupChars c)) = _
  rw [hf, hb]
  show (if c0 = [] then none else
      match jsonLoadsL c0 with
      | some v => some v
      | none => jsonLoadsL (cleanupChars c0)) = _
  rw [if_neg hg]

/-- C6 (corrected): for every JSON object whose keys and string values
consist of plain characters (no quotes, braces, backslashes, backticks or
smart punctuation), the extractor maps the object rendered inside a
```json fenced block, the object embedded in prose (prose free of `\x7b`
and backticks), and the object with its straight double quotes replaced by
smart quotes, all to the same parsed object. -/
theorem claim_C6 (ms : List (String × PyJson)) (pre suf : List Char)
    (hwf : wfV (.obj ms) = true)
    (hpre : ∀ c ∈ pre, (c == '{') = false ∧ ¬ c = '`')
    (hsuf : ∀ c ∈ suf, ¬ c = '`') :
    extract_json_from_response_text (fenceWrap (renderV (.obj ms))).asString
        = some (.obj ms) ∧
    extract_json_from_response_text (pre ++ renderV (.obj ms) ++ suf).asString
        = some (.obj ms) ∧
    extract_json_from_response_text (smartQuoted (renderV (.obj ms))).asString
        = some (.obj ms) := by
  have hwfp : wfPairs ms = true := hwf
  have hrender_head : renderV (.obj ms) = '{' :: renderPairs ms ++ ['}'] := rfl
  have htame : ∀ c ∈ renderV (.obj ms), tameChar c = true := tameV _ hwf
  have hrbk : ∀ c ∈ renderV (.obj ms), ¬ c = '`' :=
    fun c hc => tame_ne_backtick (htame c hc)
  have hstrip : pyStripL ('\n' :: renderV (.obj ms) ++ ['\n']) = renderV (.obj ms) := by
    rw [hrender_head]
    exact pyStripL_wrap '{' '}' (renderPairs ms) (by decide) (by decide)
  refine ⟨?_, ?_, ?_⟩
  · have hne : ¬ ((fenceWrap (renderV (.obj ms))).asString = "") := by
      rw [show fenceWrap (renderV (.obj ms))
          = '`' :: ("``json".toList
              ++ ('\n' :: renderV (.obj ms) ++ '\n' :: "```".toList)) from rfl]
      exact asString_cons_ne_empty _ _
    have hg : ¬ (pyStripL ('\n' :: renderV (.obj ms) ++ ['\n']) = []) := by
      rw [hstrip, hrender_head]
      simp
    rw [extract_via_fence _ _ hne (fenceSearch_wrap _ hrbk) hg, hstrip,
      jsonLoadsL_render _ hwf]
  · have hneT : ¬ ((pre ++ renderV (.obj ms) ++ suf).asString = "") := by
      intro h
      have h2 : (pre ++ renderV (.obj ms) ++ suf : List Char) = [] :=
        congrArg String.toList h
      rw [hrender_head] at h2
      simp at h2
    have hfn : fenceSearch (pre ++ renderV (.obj ms) ++ suf) = none := by
      refine fenceSearch_backtick_free _ ?_
      intro c hc
      rcases List.mem_append.mp hc with hc1 | hc2
      · rcases List.mem_append.mp hc1 with hc3 | hc4
        · exact (hpre c hc3).2
        · exact hrbk c hc4
      · exact hsuf c hc2
    have hbs : firstBraceSpan (pre ++ renderV (.obj ms) ++ suf)
        = some (renderV (.obj ms)) := by
      rw [List.append_assoc, firstBraceSpan_skip pre (fun c hc => (hpre c hc).1)]
      have h := firstBraceSpan_map_obj id rfl rfl (fun c h1 h2 => ⟨h1, h2⟩) ms hwfp suf
      rw [List.map_id] at h
      exact h
    have hg : ¬ ((renderV (.obj ms) : List Char) = []) := by
      rw [hrender_head]
      simp
    rw [extract_via_span _ _ hneT hfn hbs hg, jsonLoadsL_render _ hwf]
  · have hneS : ¬ ((smartQuoted (renderV (.obj ms))).asString = "") := by
      intro h
      have h2 : smartQuoted (renderV (.obj ms)) = [] := congrArg String.toList h
      rw [hrender_head] at h2
      simp [smartQuoted] at h2
    have hfnS : fenceSearch (smartQuoted (renderV (.obj ms))) = none := by
      refine fenceSearch_backtick_free _ ?_
      intro c hc
      rcases List.mem_map.mp hc with ⟨x, hx, rfl⟩
      by_cases hq : x = '"'
      · subst hq
        intro he
        exact absurd he (by decide)
      · show ¬ (if x == '"' then '“' else x) = '`'
        rw [if_neg (by simp [hq])]
        exact tame_ne_backtick (htame x hx)
    have hbsS : firstBraceSpan (smartQuoted (renderV (.obj ms)))
        = some (smartQuoted (renderV (.obj ms))) := by
      have h := firstBraceSpan_map_obj (fun c => if c == '"' then '“' else c)
        (by decide) (by decide)
        (fun c h1 h2 => by
          by_cases hq : c = '"'
          · subst hq
            exact ⟨by decide, by decide⟩
          · show ((if c == '"' then '“' else c) == '{') = false ∧
                ((if c == '"' then '“' else c) == '}') = false
            rw [if_neg (by simp [hq])]
            exact ⟨h1, h2⟩)
        ms hwfp []
      rw [List.append_nil] at h
      exact h
    have hgS : ¬ ((smartQuoted (renderV (.obj ms)) : List Char) = []) := by
      rw [hrender_head]
      simp [smartQuoted]
    cases ms with
    | nil =>
      rw [extract_via_span _ _ hneS hfnS hbsS hgS]
      rw [show smartQuoted (renderV (.obj [])) = renderV (.obj []) from rfl]
      rw [jsonLoadsL_render _ hwf]
    | cons kv ms' =>
      obtain ⟨k, v⟩ := kv
      rw [extract_via_span _ _ hneS hfnS hbsS hgS]
      rw [jsonLoadsL_smart_obj_cons k v ms']
      show jsonLoadsL (cleanupChars (smartQuoted (renderV (.obj ((k, v) :: ms')))))
          = some (.obj ((k, v) :: ms'))
      rw [cleanup_smart _ (tameV _ hwf), jsonLoadsL_render _ hwf]

/-- C6 counterexample to the claim as stated, which quantifies over every
JSON object: for an object whose string value contains `\x7d`, the fenced
response parses but the prose-embedded response does not — the depth-counted
brace scan counts the brace inside the string literal and truncates the
candidate, so the three forms do not all map to the same object. -/
theorem claim_C6_counterexample :
    extract_json_from_response_text "```json\n\x7b\"a\":\"\x7d\"\x7d\n```"
        = some (.obj [("a", .str "\x7d")]) ∧
    extract_json_from_response_text "see \x7b\"a\":\"\x7d\"\x7d ok" = none := by
  constructor
  · rfl
  · rfl

/-- C6 witness: the corrected claim instantiated at the object
`\x7b"a": "b"\x7d` with concrete prose around the embedded copy. -/
theorem claim_C6_witness :
    (wfV (.obj [("a", PyJson.str "b")]) = true) ∧
    (extract_json_from_response_text
        (fenceWrap (renderV (.obj [("a", PyJson.str "b")]))).asString
      = some (.obj [("a", PyJson.str "b")]) ∧
    extract_json_from_response_text
        ("An object: ".toList ++ renderV (.obj [("a", PyJson.str "b")])
          ++ " done.".toList).asString
      = some (.obj [("a", PyJson.str "b")]) ∧
    extract_json_from_response_text
        (smartQuoted (renderV (.obj [("a", PyJson.str "b")]))).asString
      = some (.obj [("a", PyJson.str "b")])) :=
  ⟨by decide, claim_C6 [("a", PyJson.str "b")] "An object: ".toList " done.".toList
    (by decide) (by decide) (by decide)⟩

end TwAuto
